import Mathlib

/-!
Verification development for the SalesBoostAI webhook / in-memory store core.

The definitions below are a shallow embedding of the TypeScript sources:
  * `server/services/webhook.ts`  — signature codec and webhook dispatcher
  * `server/storage.ts`           — in-memory entity store (`MemStorage`)
  * `server/routes.ts`            — the `POST /api/webhook/chat` handler
Strings are modelled by `String`, byte buffers by `List Nat` (each entry a
byte value), machine numbers by `Nat`/`Int` with explicit `% 2^32` where the
SHA-256 rounds overflow, decimal amounts by `Rat`, and `Date` values by an
explicit clock parameter.  Fallible operations return `Except String _`.
-/

namespace SalesBoost

/-! ## Bytes and hexadecimal rendering -/

/-- UTF-8 encoding of a single character, as byte values. -/
def utf8Char (c : Char) : List Nat :=
  let n := c.toNat
  if n < 0x80 then [n]
  else if n < 0x800 then [0xc0 ||| n / 64, 0x80 ||| n % 64]
  else if n < 0x10000 then [0xe0 ||| n / 4096, 0x80 ||| (n / 64 % 64), 0x80 ||| (n % 64)]
  else [0xf0 ||| n / 262144, 0x80 ||| (n / 4096 % 64), 0x80 ||| (n / 64 % 64), 0x80 ||| (n % 64)]

/-- UTF-8 bytes of a string, as natural numbers (the semantics of
Node's `Buffer.from(string)`). -/
def strBytes (s : String) : List Nat :=
  s.data.flatMap utf8Char

/-- Lowercase hexadecimal digit for a value below 16. -/
def hexDigit (n : Nat) : Char :=
  if n < 10 then Char.ofNat (48 + n) else Char.ofNat (87 + n)

/-- Render one byte as two lowercase hexadecimal characters. -/
def byteToHex (b : Nat) : List Char :=
  [hexDigit (b / 16 % 16), hexDigit (b % 16)]

/-- Render a byte list as a lowercase hexadecimal string
(the semantics of Node's `.digest('hex')`). -/
def bytesToHex (bs : List Nat) : String :=
  ⟨bs.flatMap byteToHex⟩

/-! ## SHA-256 (FIPS 180-4), over byte lists -/

/-- 2^32, the word modulus of SHA-256 arithmetic. -/
def w32 : Nat := 4294967296

/-- Right rotation of a 32-bit word. -/
def rotr32 (n x : Nat) : Nat := ((x >>> n) ||| (x <<< (32 - n))) % w32

/-- Bitwise complement within 32 bits. -/
def not32 (x : Nat) : Nat := x ^^^ 4294967295

/-- The SHA-256 round constants. -/
def sha256K : List Nat :=
  [1116352408, 1899447441, 3049323471, 3921009573, 961987163, 1508970993,
   2453635748, 2870763221, 3624381080, 310598401, 607225278, 1426881987,
   1925078388, 2162078206, 2614888103, 3248222580, 3835390401, 4022224774,
   264347078, 604807628, 770255983, 1249150122, 1555081692, 1996064986,
   2554220882, 2821834349, 2952996808, 3210313671, 3336571891, 3584528711,
   113926993, 338241895, 666307205, 773529912, 1294757372, 1396182291,
   1695183700, 1986661051, 2177026350, 2456956037, 2730485921, 2820302411,
   3259730800, 3345764771, 3516065817, 3600352804, 4094571909, 275423344,
   430227734, 506948616, 659060556, 883997877, 958139571, 1322822218,
   1537002063, 1747873779, 1955562222, 2024104815, 2227730452, 2361852424,
   2428436474, 2756734187, 3204031479, 3329325298]

/-- The SHA-256 initial hash value. -/
def sha256H0 : List Nat :=
  [1779033703, 3144134277, 1013904242, 2773480762, 1359893119, 2600822924,
   528734635, 1541459225]

/-- SHA-256 padding: append `0x80`, zero bytes to 56 mod 64, then the
bit length as an 8-byte big-endian integer. -/
def sha256pad (msg : List Nat) : List Nat :=
  let len := msg.length
  let zeros := (64 - ((len + 9) % 64)) % 64
  let bitLen := len * 8
  msg ++ [0x80] ++ List.replicate zeros 0 ++
    [bitLen / 2^56 % 256, bitLen / 2^48 % 256, bitLen / 2^40 % 256, bitLen / 2^32 % 256,
     bitLen / 2^24 % 256, bitLen / 2^16 % 256, bitLen / 2^8 % 256, bitLen % 256]

/-- Split a byte list into 64-byte chunks (structural recursion on a fuel
bound so the kernel can evaluate it; `bs.length` steps always suffice). -/
def chunks64Aux : Nat → List Nat → List (List Nat)
  | 0, _ => []
  | _, [] => []
  | fuel + 1, b :: bs => (b :: bs).take 64 :: chunks64Aux fuel ((b :: bs).drop 64)

/-- Split a byte list into 64-byte chunks. -/
def chunks64 (bs : List Nat) : List (List Nat) := chunks64Aux bs.length bs

/-- Assemble four consecutive bytes (big-endian) into 32-bit words. -/
def bytesToWords : List Nat → List Nat
  | b0 :: b1 :: b2 :: b3 :: rest =>
      (b0 * 2^24 + b1 * 2^16 + b2 * 2^8 + b3) % w32 :: bytesToWords rest
  | _ => []

/-- Extend the 16 message words of a block to 64 schedule words. -/
def sha256extend (ws : List Nat) : Nat → List Nat
  | 0 => ws
  | k + 1 =>
      let n := ws.length
      let w15 := ws.getD (n - 15) 0
      let w2 := ws.getD (n - 2) 0
      let s0 := rotr32 7 w15 ^^^ rotr32 18 w15 ^^^ (w15 >>> 3)
      let s1 := rotr32 17 w2 ^^^ rotr32 19 w2 ^^^ (w2 >>> 10)
      sha256extend (ws ++ [(ws.getD (n - 16) 0 + s0 + ws.getD (n - 7) 0 + s1) % w32]) k

/-- One SHA-256 compression round: state is the 8-word working vector. -/
def sha256round (st : List Nat) (kw : Nat × Nat) : List Nat :=
  match st with
  | [a, b, c, d, e, f, g, h] =>
      let s1 := rotr32 6 e ^^^ rotr32 11 e ^^^ rotr32 25 e
      let ch := (e &&& f) ^^^ (not32 e &&& g)
      let t1 := (h + s1 + ch + kw.1 + kw.2) % w32
      let s0 := rotr32 2 a ^^^ rotr32 13 a ^^^ rotr32 22 a
      let mj := (a &&& b) ^^^ (a &&& c) ^^^ (b &&& c)
      let t2 := (s0 + mj) % w32
      [(t1 + t2) % w32, a, b, c, (d + t1) % w32, e, f, g]
  | other => other

/-- Process one 64-byte block, updating the 8-word hash state. -/
def sha256block (hs : List Nat) (block : List Nat) : List Nat :=
  let ws := sha256extend (bytesToWords block) 48
  let st := (sha256K.zip ws).foldl sha256round hs
  (hs.zip st).map (fun p => (p.1 + p.2) % w32)

/-- Serialize a 32-bit word as four big-endian bytes. -/
def wordToBytes (x : Nat) : List Nat :=
  [x / 2^24 % 256, x / 2^16 % 256, x / 2^8 % 256, x % 256]

/-- SHA-256 digest of a byte list, as a 32-byte list. -/
def sha256 (msg : List Nat) : List Nat :=
  ((chunks64 (sha256pad msg)).foldl sha256block sha256H0).flatMap wordToBytes

/-! ## HMAC-SHA256 (RFC 2104) -/

/-- HMAC-SHA256 over byte lists: key normalisation to the 64-byte block
size, then the nested inner/outer hashes. -/
def hmacSha256 (key msg : List Nat) : List Nat :=
  let k0 := if key.length > 64 then sha256 key else key
  let kp := k0 ++ List.replicate (64 - k0.length) 0
  let ipad := kp.map (fun b => b ^^^ 0x36)
  let opad := kp.map (fun b => b ^^^ 0x5c)
  sha256 (opad ++ sha256 (ipad ++ msg))

/-! ## Signature codec (`WebhookService`, `server/services/webhook.ts`) -/

/-- Node's `crypto.timingSafeEqual`: throws a `RangeError` when the two
buffers differ in byte length; otherwise compares them in constant time by
accumulating the XOR of every byte pair. -/
def timingSafeEqual (a b : List Nat) : Except String Bool :=
  if a.length ≠ b.length then
    .error "RangeError: Input buffers must have the same byte length"
  else
    .ok (((a.zip b).foldl (fun acc p => acc ||| (p.1 ^^^ p.2)) 0) == 0)

/-- `WebhookService.generateSignature`: HMAC-SHA256 of the payload keyed by
the secret, rendered as a lowercase hexadecimal string. -/
def generateSignature (payload secret : String) : String :=
  bytesToHex (hmacSha256 (strBytes secret) (strBytes payload))

/-- `WebhookService.verifySignature`: recompute the expected tag and compare
with `crypto.timingSafeEqual` over `Buffer.from` (UTF-8 bytes) of the two
strings.  The `timingSafeEqual` length-mismatch throw propagates as
`.error`. -/
def verifySignature (payload signature secret : String) : Except String Bool :=
  let expectedSignature := generateSignature payload secret
  timingSafeEqual (strBytes signature) (strBytes expectedSignature)

/-- `WebhookService.verifyIncomingWebhook`: forwards to `verifySignature`. -/
def verifyIncomingWebhook (body signature secret : String) : Except String Bool :=
  verifySignature body signature secret

/-! ## JSON values and `JSON.stringify`

`jsonb` columns and webhook envelopes are JSON values.  Numbers occurring in
the envelopes are all integral record ids, so `num` carries an `Int`. -/

inductive Json where
  | null : Json
  | bool : Bool → Json
  | num : Int → Json
  | str : String → Json
  | arr : List Json → Json
  | obj : List (String × Json) → Json

/-- `JSON.stringify` escaping of one character inside a string literal. -/
def jsonEscapeChar (c : Char) : List Char :=
  if c = '"' then ['\\', '"']
  else if c = '\\' then ['\\', '\\']
  else if c = '\x08' then ['\\', 'b']
  else if c = '\x09' then ['\\', 't']
  else if c = '\x0a' then ['\\', 'n']
  else if c = '\x0c' then ['\\', 'f']
  else if c = '\x0d' then ['\\', 'r']
  else if c.toNat < 32 then
    ['\\', 'u', '0', '0', hexDigit (c.toNat / 16), hexDigit (c.toNat % 16)]
  else [c]

/-- `JSON.stringify` rendering of a string literal, quotes included. -/
def jsonQuote (s : String) : String :=
  "\"" ++ ⟨s.data.flatMap jsonEscapeChar⟩ ++ "\""

mutual

/-- `JSON.stringify` (no indentation): object keys in insertion order. -/
def jsonStringify : Json → String
  | .null => "null"
  | .bool true => "true"
  | .bool false => "false"
  | .num n => toString n
  | .str s => jsonQuote s
  | .arr xs => "[" ++ String.intercalate "," (jsonArrItems xs) ++ "]"
  | .obj kvs => "\x7b" ++ String.intercalate "," (jsonObjItems kvs) ++ "\x7d"

/-- Renders the elements of a JSON array. -/
def jsonArrItems : List Json → List String
  | [] => []
  | x :: xs => jsonStringify x :: jsonArrItems xs

/-- Renders the `key:value` members of a JSON object. -/
def jsonObjItems : List (String × Json) → List String
  | [] => []
  | (k, v) :: kvs => (jsonQuote k ++ ":" ++ jsonStringify v) :: jsonObjItems kvs

end

/-! ## JavaScript value conventions

Nullable columns are `Option`; an absent/`null`/`undefined` value is `none`.
JavaScript truthiness tests on such fields succeed only on `some true`
(for booleans) or a non-empty string. -/

/-- Truthiness of a nullable boolean field (`webhook.isActive`). -/
def truthy : Option Bool → Bool
  | some b => b
  | none => false

/-- Truthiness of a nullable string field (a header or body field). -/
def truthyStr : Option String → Bool
  | some s => !s.isEmpty
  | none => false

/-- `x || undefined` on a nullable numeric id: `null` and `0` are falsy. -/
def orUndefNat : Option Nat → Option Nat
  | some n => if n = 0 then none else some n
  | none => none

/-- `x || undefined` on a nullable string: `null` and `""` are falsy. -/
def orUndefStr : Option String → Option String
  | some s => if s.isEmpty then none else some s
  | none => none

/-- A nullable string column rendered as a JSON value. -/
def optStr : Option String → Json
  | some s => .str s
  | none => .null

/-! ## Entity records (`shared/schema.ts`, as stored by `MemStorage`)

`decimal` columns travel as strings in the TypeScript layer, so `price`,
`totalAmount` and `confidence` are `String` here; timestamps are `Nat`
clock values supplied explicitly (`new Date()` at each call). -/

structure User where
  id : Nat
  username : String
  password : String
  role : String
  createdAt : Nat
deriving DecidableEq

structure Conversation where
  id : Nat
  sessionId : String
  customerId : Option String
  customerName : Option String
  status : String
  lastMessage : Option String
  context : Json
  createdAt : Nat
  updatedAt : Nat

structure Message where
  id : Nat
  conversationId : Nat
  role : String
  content : String
  metadata : Json
  timestamp : Nat

structure Product where
  id : Nat
  shopifyId : Option String
  title : String
  description : Option String
  price : String
  compareAtPrice : Option String
  category : Option String
  tags : List String
  inventory : Option Int
  imageUrl : Option String
  isActive : Option Bool
  syncedAt : Nat
deriving DecidableEq

structure Order where
  id : Nat
  shopifyId : Option String
  conversationId : Option Nat
  customerId : Option String
  customerEmail : Option String
  status : String
  totalAmount : String
  currency : Option String
  lineItems : Json
  source : Option String
  createdAt : Nat
  updatedAt : Nat

structure Recommendation where
  id : Nat
  conversationId : Nat
  productId : Nat
  type : String
  confidence : String
  reason : Option String
  presented : Option Bool
  accepted : Option Bool
  createdAt : Nat

structure Webhook where
  id : Nat
  url : String
  events : List String
  secret : String
  isActive : Option Bool
  description : Option String
  lastTriggered : Option Nat
  createdAt : Nat
deriving DecidableEq

/-! ## Insert drafts (the `InsertX` types)

Fields the insert schemas make optional are modelled at the values the
call sites supply; `MemStorage` spreads the draft as-is (it applies no
database defaults). -/

structure InsertUser where
  username : String
  password : String

structure InsertConversation where
  sessionId : String
  customerId : Option String
  customerName : Option String
  status : String
  lastMessage : Option String
  context : Json

structure InsertMessage where
  conversationId : Nat
  role : String
  content : String
  metadata : Json

structure InsertProduct where
  shopifyId : Option String
  title : String
  description : Option String
  price : String
  compareAtPrice : Option String
  category : Option String
  tags : List String
  inventory : Option Int
  imageUrl : Option String
  isActive : Option Bool
deriving DecidableEq

structure InsertOrder where
  shopifyId : Option String
  conversationId : Option Nat
  customerId : Option String
  customerEmail : Option String
  status : String
  totalAmount : String
  currency : Option String
  lineItems : Json
  source : Option String

structure InsertRecommendation where
  conversationId : Nat
  productId : Nat
  type : String
  confidence : String
  reason : Option String
  presented : Option Bool
  accepted : Option Bool

structure InsertWebhook where
  url : String
  events : List String
  secret : String
  isActive : Option Bool
  description : Option String

/-! ## Partial-update patches

`updateX(id, updates)` takes `Partial<X>`; the patches model the fields the
call sites pass (none touches `id` or the creation timestamp). -/

structure ConversationPatch where
  status : Option String
  lastMessage : Option String

structure OrderPatch where
  status : Option String

structure RecommendationPatch where
  accepted : Option Bool

structure WebhookPatch where
  isActive : Option Bool
  lastTriggered : Option Nat

/-! ## `MemStorage` (`server/storage.ts`)

Each JavaScript `Map` is modelled as a list of records in insertion order
(`Map` iteration order); `set` on an existing key replaces in place, `set`
on a fresh key appends, `delete` removes.  `currentId` is the single
counter `nextId` increments for every entity kind. -/

/-- The record `createProduct`/`updateProduct` store: every draft field,
the given id, and a fresh `syncedAt` stamp. -/
def productOfDraft (d : InsertProduct) (id now : Nat) : Product :=
  ⟨id, d.shopifyId, d.title, d.description, d.price, d.compareAtPrice,
   d.category, d.tags, d.inventory, d.imageUrl, d.isActive, now⟩

structure MemStorage where
  users : List User
  conversations : List Conversation
  messages : List Message
  products : List Product
  orders : List Order
  recommendations : List Recommendation
  webhooks : List Webhook
  currentId : Nat

/-- The constructor: empty maps, counter at 1. -/
def MemStorage.init : MemStorage :=
  ⟨[], [], [], [], [], [], [], 1⟩

namespace MemStorage

/-- `getConversationBySessionId`: first match in iteration order. -/
def getConversationBySessionId (s : MemStorage) (sessionId : String) :
    Option Conversation :=
  s.conversations.find? (fun conv => conv.sessionId == sessionId)

/-- `createConversation`. -/
def createConversation (now : Nat) (d : InsertConversation) (s : MemStorage) :
    Conversation × MemStorage :=
  let id := s.currentId
  let conversation : Conversation :=
    ⟨id, d.sessionId, d.customerId, d.customerName, d.status, d.lastMessage,
     d.context, now, now⟩
  (conversation,
   { s with conversations := s.conversations ++ [conversation],
            currentId := s.currentId + 1 })

/-- `updateConversation`: shallow merge, `updatedAt` re-stamped. -/
def updateConversation (now : Nat) (id : Nat) (u : ConversationPatch)
    (s : MemStorage) : Option Conversation × MemStorage :=
  match s.conversations.find? (fun c => c.id == id) with
  | none => (none, s)
  | some c =>
      let updated : Conversation :=
        { c with status := u.status.getD c.status,
                 lastMessage := match u.lastMessage with
                   | some v => some v
                   | none => c.lastMessage,
                 updatedAt := now }
      (some updated,
       { s with conversations :=
           s.conversations.map (fun q => if q.id == id then updated else q) })

/-- `createUser` (role is hard-coded to `admin`). -/
def createUser (now : Nat) (d : InsertUser) (s : MemStorage) :
    User × MemStorage :=
  let id := s.currentId
  let user : User := ⟨id, d.username, d.password, "admin", now⟩
  (user, { s with users := s.users ++ [user], currentId := s.currentId + 1 })

/-- `createMessage`: stores the draft unchecked (no lookup of the owning
conversation). -/
def createMessage (now : Nat) (d : InsertMessage) (s : MemStorage) :
    Message × MemStorage :=
  let id := s.currentId
  let message : Message := ⟨id, d.conversationId, d.role, d.content, d.metadata, now⟩
  (message,
   { s with messages := s.messages ++ [message], currentId := s.currentId + 1 })

/-- `getProductByShopifyId`: first product whose `shopifyId` equals the key
(the caller passes `insertProduct.shopifyId!`, hence the `Option` key). -/
def getProductByShopifyId (s : MemStorage) (shopifyId : Option String) :
    Option Product :=
  s.products.find? (fun product => product.shopifyId == shopifyId)

/-- `createProduct`. -/
def createProduct (now : Nat) (d : InsertProduct) (s : MemStorage) :
    Product × MemStorage :=
  let id := s.currentId
  let product := productOfDraft d id now
  (product,
   { s with products := s.products ++ [product], currentId := s.currentId + 1 })

/-- `updateProduct` at its single call type (`syncProducts` passes a whole
`InsertProduct`): `{ ...product, ...insertProduct, syncedAt: now }` replaces
every draft field wholesale and keeps the id. -/
def updateProduct (now : Nat) (id : Nat) (d : InsertProduct) (s : MemStorage) :
    Option Product × MemStorage :=
  match s.products.find? (fun p => p.id == id) with
  | none => (none, s)
  | some p =>
      let updated := productOfDraft d p.id now
      (some updated,
       { s with products := s.products.map (fun q => if q.id == id then updated else q) })

/-- One `syncProducts` loop iteration: upsert by `shopifyId`. -/
def syncOne (now : Nat) (acc : List Product × MemStorage) (d : InsertProduct) :
    List Product × MemStorage :=
  match getProductByShopifyId acc.2 d.shopifyId with
  | some existing =>
      let (u, s') := updateProduct now existing.id d acc.2
      match u with
      | some updated => (acc.1 ++ [updated], s')
      | none => (acc.1, s')
  | none =>
      let (created, s') := createProduct now d acc.2
      (acc.1 ++ [created], s')

/-- `syncProducts`: upsert each draft in order, returning the resulting
records and the final store. -/
def syncProducts (now : Nat) (l : List InsertProduct) (s : MemStorage) :
    List Product × MemStorage :=
  l.foldl (syncOne now) ([], s)

/-- `createOrder`. -/
def createOrder (now : Nat) (d : InsertOrder) (s : MemStorage) :
    Order × MemStorage :=
  let id := s.currentId
  let order : Order :=
    ⟨id, d.shopifyId, d.conversationId, d.customerId, d.customerEmail, d.status,
     d.totalAmount, d.currency, d.lineItems, d.source, now, now⟩
  (order, { s with orders := s.orders ++ [order], currentId := s.currentId + 1 })

/-- `updateOrder`: shallow merge, `updatedAt` re-stamped. -/
def updateOrder (now : Nat) (id : Nat) (u : OrderPatch) (s : MemStorage) :
    Option Order × MemStorage :=
  match s.orders.find? (fun o => o.id == id) with
  | none => (none, s)
  | some o =>
      let updated : Order := { o with status := u.status.getD o.status, updatedAt := now }
      (some updated,
       { s with orders := s.orders.map (fun q => if q.id == id then updated else q) })

/-- `createRecommendation`. -/
def createRecommendation (now : Nat) (d : InsertRecommendation) (s : MemStorage) :
    Recommendation × MemStorage :=
  let id := s.currentId
  let rec0 : Recommendation :=
    ⟨id, d.conversationId, d.productId, d.type, d.confidence, d.reason,
     d.presented, d.accepted, now⟩
  (rec0,
   { s with recommendations := s.recommendations ++ [rec0],
            currentId := s.currentId + 1 })

/-- `updateRecommendation`: shallow merge, no timestamp re-stamp. -/
def updateRecommendation (id : Nat) (u : RecommendationPatch) (s : MemStorage) :
    Option Recommendation × MemStorage :=
  match s.recommendations.find? (fun r => r.id == id) with
  | none => (none, s)
  | some r =>
      let updated : Recommendation :=
        { r with accepted := match u.accepted with
            | some b => some b
            | none => r.accepted }
      (some updated,
       { s with recommendations :=
           s.recommendations.map (fun q => if q.id == id then updated else q) })

/-- `createWebhook`. -/
def createWebhook (now : Nat) (d : InsertWebhook) (s : MemStorage) :
    Webhook × MemStorage :=
  let id := s.currentId
  let webhook : Webhook :=
    ⟨id, d.url, d.events, d.secret, d.isActive, d.description, none, now⟩
  (webhook,
   { s with webhooks := s.webhooks ++ [webhook], currentId := s.currentId + 1 })

/-- `updateWebhook`: shallow merge, no timestamp re-stamp. -/
def updateWebhook (id : Nat) (u : WebhookPatch) (s : MemStorage) :
    Option Webhook × MemStorage :=
  match s.webhooks.find? (fun w => w.id == id) with
  | none => (none, s)
  | some w =>
      let updated : Webhook :=
        { w with isActive := match u.isActive with
                   | some b => some b
                   | none => w.isActive,
                 lastTriggered := match u.lastTriggered with
                   | some t => some t
                   | none => w.lastTriggered }
      (some updated,
       { s with webhooks := s.webhooks.map (fun q => if q.id == id then updated else q) })

/-- `deleteWebhook`. -/
def deleteWebhook (id : Nat) (s : MemStorage) : Bool × MemStorage :=
  (s.webhooks.any (fun w => w.id == id),
   { s with webhooks := s.webhooks.filter (fun w => !(w.id == id)) })

/-- `getActiveWebhooks`. -/
def getActiveWebhooks (s : MemStorage) : List Webhook :=
  s.webhooks.filter (fun w => truthy w.isActive)

end MemStorage

/-! ## `Number(...)` on decimal columns

`getMetrics` reads decimal strings back with JavaScript `Number()`.  The
model covers the decimal-literal subset `-? digits? (. digits?)?` that the
`decimal(10,2)` columns produce; every other input (NaN in JavaScript) is
`none`, and `none` propagates through the revenue fold the way NaN does. -/

/-- Decimal digit test. -/
def isDigitCh (c : Char) : Bool := 48 ≤ c.toNat && c.toNat ≤ 57

/-- Value of a digit run. -/
def digitsVal (ds : List Char) : Nat :=
  ds.foldl (fun acc c => acc * 10 + (c.toNat - 48)) 0

/-- `Number(s)` on the decimal-literal subset; `none` models NaN. -/
def parseDec (s : String) : Option Rat :=
  let (neg, cs) : Bool × List Char :=
    match s.data with
    | '-' :: rest => (true, rest)
    | cs => (false, cs)
  let intPart := cs.takeWhile (fun c => c ≠ '.')
  let fracPart := (cs.dropWhile (fun c => c ≠ '.')).drop 1
  if intPart.all isDigitCh && fracPart.all isDigitCh &&
      !(intPart.isEmpty && fracPart.isEmpty) then
    let mag : Rat := (digitsVal intPart : Rat) +
      (digitsVal fracPart : Rat) / ((10 : Rat) ^ fracPart.length)
    some (if neg then -mag else mag)
  else none

/-- The figures `MemStorage.getMetrics` returns.  `Option Rat` carries the
possibility of NaN (`none`) in the revenue figures. -/
structure Metrics where
  activeConversations : Nat
  totalConversations : Nat
  conversionRate : Rat
  totalRevenue : Option Rat
  averageOrderValue : Option Rat
  totalOrders : Nat
deriving DecidableEq

namespace MemStorage

/-- `getMetrics` (`server/storage.ts` lines 394-421): the
`conversationsWithOrders` set collects the raw `conversationId` field of
every order — the `null` of an order without a conversation included. -/
def getMetrics (s : MemStorage) : Metrics :=
  let activeConversations := (s.conversations.filter (fun c => c.status == "active")).length
  let totalConversations := s.conversations.length
  let totalOrders := s.orders.length
  let completedOrders := s.orders.filter (fun o => o.status == "completed")
  let totalRevenue : Option Rat :=
    completedOrders.foldl (fun acc o => do
      let a ← acc
      let v ← parseDec o.totalAmount
      pure (a + v)) (some 0)
  let averageOrderValue : Option Rat :=
    if completedOrders.length > 0 then
      totalRevenue.map (fun r => r / (completedOrders.length : Rat))
    else some 0
  let conversationsWithOrders := ((s.orders.map (fun o => o.conversationId)).dedup).length
  let conversionRate : Rat :=
    if totalConversations > 0 then
      (conversationsWithOrders : Rat) / (totalConversations : Rat)
    else 0
  ⟨activeConversations, totalConversations, conversionRate, totalRevenue,
   averageOrderValue, totalOrders⟩

end MemStorage

/-! ## `getTopRecommendedProducts` -/

/-- One step of the `productStats` accumulation: bump the entry of
`pid` (`recommendations`, and `accepted` when the flag is truthy), creating
it at first occurrence.  Entries are `(productId, recommendations, accepted)`. -/
def upsertStat (m : List (Nat × Nat × Nat)) (pid : Nat) (acc : Bool) :
    List (Nat × Nat × Nat) :=
  if m.any (fun e => e.1 == pid) then
    m.map (fun e =>
      if e.1 == pid then (e.1, e.2.1 + 1, e.2.2 + (if acc then 1 else 0)) else e)
  else m ++ [(pid, 1, if acc then 1 else 0)]

/-- The `productStats` map, in first-occurrence order. -/
def productStats (recs : List Recommendation) : List (Nat × Nat × Nat) :=
  recs.foldl (fun m r => upsertStat m r.productId (truthy r.accepted)) []

/-- An entry of the top-recommended-products report. -/
structure TopProduct where
  product : Product
  recommendations : Nat
  successRate : Rat
deriving DecidableEq

namespace MemStorage

/-- `getTopRecommendedProducts`: group recommendations by product id, join
each group to its product record (groups whose product is absent are
dropped), sort descending by recommendation count (stable, as V8's sort),
truncate to `limit`. -/
def getTopRecommendedProducts (limit : Nat) (s : MemStorage) : List TopProduct :=
  let stats := productStats s.recommendations
  let results : List TopProduct := stats.filterMap (fun e =>
    (s.products.find? (fun p => p.id == e.1)).map (fun product =>
      ⟨product, e.2.1,
       if e.2.1 > 0 then (e.2.2 : Rat) / (e.2.1 : Rat) else 0⟩))
  (results.mergeSort (fun a b => decide (b.recommendations ≤ a.recommendations))).take limit

end MemStorage

/-! ## Webhook dispatcher (`WebhookService`, `server/services/webhook.ts`) -/

/-- The envelope (`WebhookPayload` of `webhook.ts`): `conversationId` and
`customerId` are `undefined`-omitted when absent. -/
structure WebhookPayload where
  event : String
  timestamp : String
  data : Json
  conversationId : Option Nat
  customerId : Option String

/-- The envelope as the JSON value `JSON.stringify` serializes: fields in
declaration order, `undefined` fields omitted. -/
def payloadJson (p : WebhookPayload) : Json :=
  Json.obj
    ([("event", Json.str p.event), ("timestamp", Json.str p.timestamp),
      ("data", p.data)]
     ++ (match p.conversationId with
         | some c => [("conversationId", Json.num (c : Int))]
         | none => [])
     ++ (match p.customerId with
         | some c => [("customerId", Json.str c)]
         | none => []))

/-- `triggerOrderCreated`'s envelope (lines 111-126 of `webhook.ts`):
`order.conversationId || undefined` and `order.customerId || undefined`
drop falsy values at top level, while the `data` fields keep `null`s. -/
def orderCreatedPayload (nowIso : String) (o : Order) : WebhookPayload :=
  { event := "order.created", timestamp := nowIso,
    data := Json.obj
      [("orderId", Json.num (o.id : Int)), ("shopifyId", optStr o.shopifyId),
       ("customerId", optStr o.customerId),
       ("customerEmail", optStr o.customerEmail),
       ("totalAmount", Json.str o.totalAmount), ("currency", optStr o.currency),
       ("source", optStr o.source), ("lineItems", o.lineItems)],
    conversationId := orUndefNat o.conversationId,
    customerId := orUndefStr o.customerId }

/-- The HTTP request one delivery attempt issues (`axios.post` in
`triggerWebhook`): target URL, serialized envelope, and the signature and
event headers. -/
structure WebhookRequest where
  url : String
  body : String
  signatureHeader : String
  eventHeader : String
deriving DecidableEq

/-- Build the delivery request for one subscription: the envelope is
serialized once and signed with that subscription's secret. -/
def mkWebhookRequest (w : Webhook) (p : WebhookPayload) : WebhookRequest :=
  let payloadString := jsonStringify (payloadJson p)
  ⟨w.url, payloadString, generateSignature payloadString w.secret, p.event⟩

/-- The body of `triggerWebhook`'s try/catch as a function of one
transport exchange: a response in the 2xx range records success, any other
status records failure, and a thrown error (timeout, network failure, an
axios non-2xx rejection) is caught and records failure.  Total — no
exception escapes a single attempt. -/
def deliveryOutcome : Except String Nat → Bool
  | .ok status => if 200 ≤ status ∧ status < 300 then true else false
  | .error _ => false

/-- `triggerWebhook`: the transport is an oracle mapping the issued request
to either a thrown error or a response status; the attempt's recorded
outcome is a function of that target's own exchange alone. -/
def triggerWebhook (http : WebhookRequest → Except String Nat) (w : Webhook)
    (p : WebhookPayload) : Bool :=
  deliveryOutcome (http (mkWebhookRequest w p))

/-- The subscription filter of every `triggerX` fan-out: active, and the
event set (always an array here, so `Array.isArray` holds) contains the
event name. -/
def matchesEvent (name : String) (w : Webhook) : Bool :=
  truthy w.isActive && w.events.contains name

/-- `triggerOrderCreated`: filter the subscriptions, then deliver to each
independently; the result records each attempt's request and outcome. -/
def triggerOrderCreated (http : WebhookRequest → Except String Nat)
    (nowIso : String) (o : Order) (webhooks : List Webhook) :
    List (WebhookRequest × Bool) :=
  let payload := orderCreatedPayload nowIso o
  (webhooks.filter (matchesEvent "order.created")).map
    (fun w => (mkWebhookRequest w payload, triggerWebhook http w payload))

/-! ## `POST /api/webhook/chat` (`server/routes.ts` lines 354-429) -/

/-- The sanitized response of `openaiService.processMessage`. -/
structure AiResponse where
  message : String
  intent : String
  urgency : String
  recommendationsJson : Json

/-- The parsed request body, restricted to string-typed fields (the type
the endpoint contract expects); `none` is an absent field. -/
structure ChatBody where
  customer_id : Option String
  message : Option String
  context : Json
  session_id : Option String

/-- An inbound request: the two headers, the body, and
`bodyRaw = JSON.stringify(req.body)` — the exact string the handler
re-serializes the parsed body into before verification. -/
structure ChatRequest where
  signature : Option String
  secret : Option String
  bodyRaw : String
  body : ChatBody

/-- The `POST /api/webhook/chat` handler: returns the response status and
the resulting store.  The external AI collaborator is an oracle that may
throw (`.error`), which the route's try/catch turns into a 500; a throw
out of `verifyIncomingWebhook` (the `timingSafeEqual` length mismatch) is
caught by the same try/catch and also surfaces as 500. -/
def webhookChatHandler (now : Nat) (ai : String → Except String AiResponse)
    (req : ChatRequest) (s : MemStorage) : Nat × MemStorage :=
  if !(truthyStr req.signature && truthyStr req.secret) then (401, s)
  else
    match verifyIncomingWebhook req.bodyRaw (req.signature.getD "") (req.secret.getD "") with
    | .error _ => (500, s)
    | .ok false => (401, s)
    | .ok true =>
        if !(truthyStr req.body.message && truthyStr req.body.session_id) then (400, s)
        else
          let msg := req.body.message.getD ""
          let sid := req.body.session_id.getD ""
          let (conversation, s1) :=
            match s.getConversationBySessionId sid with
            | some c => (c, s)
            | none =>
                s.createConversation now
                  ⟨sid, req.body.customer_id, none, "active", some msg, req.body.context⟩
          let (_, s2) := s1.createMessage now ⟨conversation.id, "user", msg, Json.null⟩
          match ai msg with
          | .error _ => (500, s2)
          | .ok resp =>
              let (_, s3) := s2.createMessage now
                ⟨conversation.id, "assistant", resp.message,
                 Json.obj [("intent", Json.str resp.intent),
                           ("urgency", Json.str resp.urgency),
                           ("recommendations", resp.recommendationsJson)]⟩
              (200, s3)

/-! ## Store operation traces

The mutating `IStorage` operations as a trace language, used to quantify
over the states the store can reach and over the identifiers the creates
hand out. -/

inductive Op where
  | createUser : InsertUser → Op
  | createConversation : InsertConversation → Op
  | updateConversation : Nat → ConversationPatch → Op
  | createMessage : InsertMessage → Op
  | createProduct : InsertProduct → Op
  | updateProduct : Nat → InsertProduct → Op
  | syncProducts : List InsertProduct → Op
  | createOrder : InsertOrder → Op
  | updateOrder : Nat → OrderPatch → Op
  | createRecommendation : InsertRecommendation → Op
  | updateRecommendation : Nat → RecommendationPatch → Op
  | createWebhook : InsertWebhook → Op
  | updateWebhook : Nat → WebhookPatch → Op
  | deleteWebhook : Nat → Op

/-- `syncOne` instrumented with the observation of the ids the creates
hand out (updates reuse an id, creates draw a fresh one). -/
def syncOneTr (now : Nat) (acc : (List Product × MemStorage) × List Nat)
    (d : InsertProduct) : (List Product × MemStorage) × List Nat :=
  match MemStorage.getProductByShopifyId acc.1.2 d.shopifyId with
  | some _ => (MemStorage.syncOne now acc.1 d, acc.2)
  | none =>
      let (created, s') := MemStorage.createProduct now d acc.1.2
      ((acc.1.1 ++ [created], s'), acc.2 ++ [created.id])

/-- Run one operation; the second component observes the ids assigned by
the creates the operation performs, in order. -/
def runOp (now : Nat) (s : MemStorage) : Op → MemStorage × List Nat
  | .createUser d => let (u, s') := s.createUser now d; (s', [u.id])
  | .createConversation d => let (c, s') := s.createConversation now d; (s', [c.id])
  | .updateConversation id u => ((s.updateConversation now id u).2, [])
  | .createMessage d => let (m, s') := s.createMessage now d; (s', [m.id])
  | .createProduct d => let (p, s') := s.createProduct now d; (s', [p.id])
  | .updateProduct id d => ((s.updateProduct now id d).2, [])
  | .syncProducts l =>
      let r := l.foldl (syncOneTr now) (([], s), [])
      (r.1.2, r.2)
  | .createOrder d => let (o, s') := s.createOrder now d; (s', [o.id])
  | .updateOrder id u => ((s.updateOrder now id u).2, [])
  | .createRecommendation d => let (r, s') := s.createRecommendation now d; (s', [r.id])
  | .updateRecommendation id u => ((s.updateRecommendation id u).2, [])
  | .createWebhook d => let (w, s') := s.createWebhook now d; (s', [w.id])
  | .updateWebhook id u => ((s.updateWebhook id u).2, [])
  | .deleteWebhook id => ((s.deleteWebhook id).2, [])

/-- Run a trace, collecting every assigned id in order. -/
def runTrace (now : Nat) (s : MemStorage) : List Op → MemStorage × List Nat
  | [] => (s, [])
  | op :: rest =>
      let (s', ids) := runOp now s op
      let (s'', ids') := runTrace now s' rest
      (s'', ids ++ ids')

/-- A trace is guarded when every `createMessage` refers to a conversation
that exists at the moment of the call — the discipline every route call
site follows. -/
def guardedB (now : Nat) (s : MemStorage) : List Op → Bool
  | [] => true
  | op :: rest =>
      (match op with
       | .createMessage d => s.conversations.any (fun c => c.id == d.conversationId)
       | _ => true) &&
      guardedB now (runOp now s op).1 rest

/-- Referential integrity of messages: every stored message's
`conversationId` is the id of a stored conversation. -/
def msgIntegrityB (s : MemStorage) : Bool :=
  s.messages.all (fun m => s.conversations.any (fun c => c.id == m.conversationId))

/-! ## Claim-side auxiliary definitions -/

/-- The conversion rate the specification describes: distinct conversation
ids appearing among the orders (an order without a conversation contributes
none), over the total conversation count. -/
def specConversionRate (s : MemStorage) : Rat :=
  if s.conversations.length > 0 then
    (((s.orders.filterMap (fun o => o.conversationId)).dedup).length : Rat) /
      (s.conversations.length : Rat)
  else 0

/-- The distinct product ids appearing among the recommendations. -/
def distinctRecommendedIds (s : MemStorage) : List Nat :=
  (s.recommendations.map (fun r => r.productId)).dedup

/-- Claim-side revenue: the sum of the parsed amounts of completed orders. -/
def specCompletedSum (s : MemStorage) : Rat :=
  ((s.orders.filter (fun o => o.status == "completed")).map
    (fun o => (parseDec o.totalAmount).getD 0)).sum

/-- Claim-side completed-order count. -/
def specCompletedCount (s : MemStorage) : Nat :=
  (s.orders.filter (fun o => o.status == "completed")).length

/-- Erase every product's `syncedAt` stamp (the one field resyncing is
allowed to refresh). -/
def eraseSync (s : MemStorage) : MemStorage :=
  { s with products := s.products.map (fun p => { p with syncedAt := 0 }) }

/-- The last draft in `l` carrying key `k` — the draft whose field values
survive a full `syncProducts` pass. -/
def lastDraftFor (l : List InsertProduct) (k : Option String) : Option InsertProduct :=
  (l.reverse).find? (fun d => d.shopifyId == k)

/-- The effect of one `syncProducts` pass on a product list already
containing every draft key: the first product carrying a drafted key takes
the field values of the last draft with that key (and a fresh stamp), every
other product is untouched. -/
def syncTransform (now : Nat) (l : List InsertProduct) (ps : List Product) :
    List Product :=
  ps.map (fun p =>
    if ps.find? (fun q => q.shopifyId == p.shopifyId) = some p ∧
        p.shopifyId ∈ l.map (fun d => d.shopifyId) then
      match lastDraftFor l p.shopifyId with
      | some d => productOfDraft d p.id now
      | none => p
    else p)

/-- Well-formedness of the product map, true in every reachable store:
ids are pairwise distinct and below the counter. -/
def ProductsWF (s : MemStorage) : Prop :=
  (s.products.map (fun p => p.id)).Nodup ∧ ∀ p ∈ s.products, p.id < s.currentId

instance (s : MemStorage) : Decidable (ProductsWF s) := by
  unfold ProductsWF; infer_instance

/-! ## Concrete fixtures (inputs for witnesses and counterexamples) -/

/-- A transport that answers 200 to every request. -/
def httpOk200 : WebhookRequest → Except String Nat := fun _ => Except.ok 200

/-- An active subscription declaring `order.created`. -/
def wbFix1 : Webhook :=
  ⟨1, "https://a.example/hook", ["order.created"], "s1", some true, none, none, 0⟩

/-- An active subscription declaring a different event. -/
def wbFix2 : Webhook :=
  ⟨2, "https://b.example/hook", ["conversation.started"], "s2", some true, none, none, 0⟩

/-- A completed order tied to conversation 3. -/
def ordFix : Order :=
  ⟨7, some "sh7", some 3, some "c9", some "c@x.io", "completed", "19.99",
   some "USD", Json.arr [], some "ai_chatbot", 0, 0⟩

/-- A product draft carrying an external id. -/
def draftFix : InsertProduct :=
  ⟨some "sp1", "Widget", none, "5.00", none, some "General", [], some 3, none, some true⟩

/-- A conversation with session id `s1`. -/
def convFix : Conversation := ⟨1, "s1", none, none, "active", none, Json.null, 0, 0⟩

/-- A completed order with no owning conversation (`conversationId` null). -/
def ordNullConv : Order :=
  ⟨2, none, none, none, none, "completed", "10.00", some "USD", Json.null,
   some "ai_chatbot", 0, 0⟩

/-- A store with one conversation and one conversation-less order. -/
def stFixC7 : MemStorage := ⟨[], [convFix], [], [], [ordNullConv], [], [], 3⟩

/-- A recommendation whose product id 42 has no product record. -/
def recFix : Recommendation := ⟨1, 1, 42, "primary", "0.90", none, some true, none, 0⟩

/-- A store with one recommendation and no products. -/
def stFixC10 : MemStorage := ⟨[], [], [], [], [], [recFix], [], 2⟩

/-- A message draft referencing conversation 1. -/
def msgDraftFix : InsertMessage := ⟨1, "user", "hi", Json.null⟩

/-- A conversation draft for session `s1`. -/
def convDraftFix : InsertConversation := ⟨"s1", none, none, "active", none, Json.null⟩

/-- An AI collaborator that always answers successfully. -/
def aiFixOk : String → Except String AiResponse :=
  fun _ => Except.ok ⟨"Sure.", "general", "low", Json.arr []⟩

/-- A chat body with `message` and `session_id` present. -/
def chatBodyFix : ChatBody := ⟨none, some "hello", Json.null, some "s1"⟩

/-- A chat body lacking the required `message` field. -/
def chatBodyNoMsg : ChatBody := ⟨none, none, Json.null, some "s1"⟩

/-- A request missing the `X-Webhook-Signature` header. -/
def reqNoSig : ChatRequest := ⟨none, some "k", "x", chatBodyFix⟩

/-- A request whose supplied signature is 8 bytes instead of 64. -/
def reqBadSigLen : ChatRequest := ⟨some "deadbeef", some "k", "x", chatBodyFix⟩

/-- A request carrying the correct tag of body `"x"` under secret `"k"`
(the lowercase-hex HMAC-SHA256), but no `message` body field. -/
def reqValidNoMsg : ChatRequest :=
  ⟨some "c38edc8815c8489f64738978f44008f8596345545f0baa68ef6fcf5c53e57189",
   some "k", "x", chatBodyNoMsg⟩

/-! # Lemmas and claim theorems -/

/-! ## Signature codec lemmas -/

theorem timingSafeEqual_self (a : List Nat) : timingSafeEqual a a = .ok true := by
  have aux : ∀ (l : List Nat) (acc : Nat),
      (l.zip l).foldl (fun acc p => acc ||| (p.1 ^^^ p.2)) acc = acc := by
    intro l
    induction l with
    | nil => intro acc; rfl
    | cons x t ih =>
        intro acc
        simp only [List.zip_cons_cons, List.foldl_cons, Nat.xor_self, Nat.or_zero]
        exact ih acc
  simp [timingSafeEqual, aux]

theorem sha256round_length (st : List Nat) (kw : Nat × Nat) :
    (sha256round st kw).length = st.length := by
  unfold sha256round
  split <;> simp

theorem foldl_sha256round_length (l : List (Nat × Nat)) :
    ∀ hs : List Nat, (l.foldl sha256round hs).length = hs.length := by
  induction l with
  | nil => intro hs; rfl
  | cons x t ih =>
      intro hs
      simp only [List.foldl_cons]
      rw [ih, sha256round_length]

theorem sha256block_length (hs block : List Nat) (h : hs.length = 8) :
    (sha256block hs block).length = 8 := by
  unfold sha256block
  simp [List.length_zip, foldl_sha256round_length, h]

theorem foldl_sha256block_length (cs : List (List Nat)) :
    ∀ hs : List Nat, hs.length = 8 → (cs.foldl sha256block hs).length = 8 := by
  induction cs with
  | nil => intro hs h; exact h
  | cons c t ih =>
      intro hs h
      simp only [List.foldl_cons]
      exact ih _ (sha256block_length hs c h)

theorem flatMap_wordToBytes_length (l : List Nat) :
    (l.flatMap wordToBytes).length = 4 * l.length := by
  induction l with
  | nil => rfl
  | cons x t ih =>
      simp only [List.flatMap_cons, List.length_append, ih, List.length_cons]
      simp [wordToBytes]
      ring

theorem sha256_length (msg : List Nat) : (sha256 msg).length = 32 := by
  unfold sha256
  rw [flatMap_wordToBytes_length, foldl_sha256block_length _ _ (by rfl)]

theorem hmacSha256_length (key msg : List Nat) :
    (hmacSha256 key msg).length = 32 := by
  unfold hmacSha256
  exact sha256_length _

theorem hexDigit_toNat_lt (n : Nat) (h : n < 16) : (hexDigit n).toNat < 128 := by
  interval_cases n <;> decide

theorem mem_flatMap_byteToHex_ascii (bs : List Nat) :
    ∀ c ∈ bs.flatMap byteToHex, c.toNat < 128 := by
  induction bs with
  | nil => intro c hc; simp at hc
  | cons b t ih =>
      intro c hc
      simp only [List.flatMap_cons, List.mem_append] at hc
      rcases hc with hc | hc
      · simp only [byteToHex, List.mem_cons, List.mem_singleton] at hc
        rcases hc with rfl | rfl | h
        · exact hexDigit_toNat_lt _ (Nat.mod_lt _ (by norm_num))
        · exact hexDigit_toNat_lt _ (Nat.mod_lt _ (by norm_num))
        · simp at h
      · exact ih c hc

theorem utf8Char_length_of_ascii (c : Char) (h : c.toNat < 128) :
    (utf8Char c).length = 1 := by
  simp [utf8Char, h]

theorem flatMap_utf8_length_of_ascii (l : List Char)
    (h : ∀ c ∈ l, c.toNat < 128) : (l.flatMap utf8Char).length = l.length := by
  induction l with
  | nil => rfl
  | cons c t ih =>
      simp only [List.flatMap_cons, List.length_append, List.length_cons]
      rw [utf8Char_length_of_ascii c (h c (List.mem_cons_self c t)),
          ih (fun x hx => h x (List.mem_cons_of_mem c hx))]
      omega

theorem flatMap_byteToHex_length (bs : List Nat) :
    (bs.flatMap byteToHex).length = 2 * bs.length := by
  induction bs with
  | nil => rfl
  | cons b t ih =>
      simp only [List.flatMap_cons, List.length_append, ih, List.length_cons]
      simp [byteToHex]
      ring

theorem strBytes_bytesToHex_length (bs : List Nat) :
    (strBytes (bytesToHex bs)).length = 2 * bs.length := by
  show ((bs.flatMap byteToHex).flatMap utf8Char).length = 2 * bs.length
  rw [flatMap_utf8_length_of_ascii _ (mem_flatMap_byteToHex_ascii bs),
      flatMap_byteToHex_length]

theorem strBytes_generateSignature_length (payload secret : String) :
    (strBytes (generateSignature payload secret)).length = 64 := by
  unfold generateSignature
  rw [strBytes_bytesToHex_length, hmacSha256_length]

/-- Shared helper: any supplied tag whose UTF-8 byte length is not the
64 bytes of the recomputed lowercase-hex tag makes `crypto.timingSafeEqual`
throw, so `verifySignature` propagates an error instead of returning a
boolean. -/
theorem verifySignature_error_of_length (payload signature secret : String)
    (h : (strBytes signature).length ≠ 64) :
    verifySignature payload signature secret =
      .error "RangeError: Input buffers must have the same byte length" := by
  simp only [verifySignature, timingSafeEqual, strBytes_generateSignature_length]
  simp [h]

/-! ## Claim C1 -/

/-- C1: for every payload string and every secret, verifying the tag
produced by signing that payload with that secret succeeds:
`verifySignature payload (generateSignature payload secret) secret`
returns `true` (and in particular does not throw), where
`generateSignature` is the HMAC-SHA256 of the payload bytes keyed by the
secret, rendered as a lowercase hexadecimal string. -/
theorem sign_verify_roundtrip (payload secret : String) :
    verifySignature payload (generateSignature payload secret) secret =
      .ok true :=
  timingSafeEqual_self (strBytes (generateSignature payload secret))

/-! ## Claim C2 -/

/-- C2 (code bug evidence): a supplied tag whose byte length differs from
the 64 bytes of the recomputed hexadecimal tag does not yield `ok false` —
`crypto.timingSafeEqual` throws and `verifySignature` propagates the
exception, contradicting the specified never-throwing boolean contract.
Here the 8-byte tag `"deadbeef"` makes the comparison throw. -/
theorem verifySignature_throws_on_short_tag :
    verifySignature "payload" "deadbeef" "secret" =
      .error "RangeError: Input buffers must have the same byte length" :=
  verifySignature_error_of_length "payload" "deadbeef" "secret" (by decide)

/-! ## Claims C3 and C4: the order-created fan-out -/

/-- C3: dispatching an order-created event to a subscription list performs
exactly as many delivery attempts as there are subscriptions that are
active and declare `order.created` (none for inactive or non-matching
ones), and the attempts line up one-to-one with the matching subscriptions
in order — each attempt posting to that subscription's URL, carrying the
serialized envelope, and signed with the HMAC of that envelope keyed by
that subscription's own secret. -/
theorem orderCreated_dispatch_attempts (http : WebhookRequest → Except String Nat)
    (nowIso : String) (o : Order) (webhooks : List Webhook) :
    (triggerOrderCreated http nowIso o webhooks).length =
      webhooks.countP (matchesEvent "order.created") ∧
    List.Forall₂ (fun (a : WebhookRequest × Bool) (w : Webhook) =>
        a.1.url = w.url ∧
        a.1.body = jsonStringify (payloadJson (orderCreatedPayload nowIso o)) ∧
        a.1.signatureHeader =
          generateSignature (jsonStringify (payloadJson (orderCreatedPayload nowIso o)))
            w.secret ∧
        a.1.eventHeader = "order.created")
      (triggerOrderCreated http nowIso o webhooks)
      (webhooks.filter (matchesEvent "order.created")) := by
  constructor
  · simp [triggerOrderCreated, List.countP_eq_length_filter]
  · unfold triggerOrderCreated
    rw [List.forall₂_map_left_iff]
    rw [List.forall₂_same]
    intro w _
    exact ⟨rfl, rfl, rfl, rfl⟩

/-- C4: in one order-created fan-out, every selected target's delivery is
recorded (the outcome list covers the whole selection), and each recorded
outcome is `deliveryOutcome` — a total boolean function — of that target's
own transport exchange alone: a timeout, transport error, or non-2xx
response at one target yields `false` for that target without raising and
without entering any other target's outcome. -/
theorem orderCreated_outcomes_isolated (http : WebhookRequest → Except String Nat)
    (nowIso : String) (o : Order) (webhooks : List Webhook) :
    (triggerOrderCreated http nowIso o webhooks).length =
      (webhooks.filter (matchesEvent "order.created")).length ∧
    ∀ i (hi : i < (triggerOrderCreated http nowIso o webhooks).length),
      ((triggerOrderCreated http nowIso o webhooks).get ⟨i, hi⟩).2 =
        deliveryOutcome
          (http (((triggerOrderCreated http nowIso o webhooks).get ⟨i, hi⟩).1)) := by
  constructor
  · simp [triggerOrderCreated]
  · intro i hi
    unfold triggerOrderCreated at hi ⊢
    simp only [List.get_eq_getElem, List.getElem_map]
    rfl

/-- Witness for C4: in a concrete two-subscription fan-out (one matching,
one not) under an all-200 transport, the first attempt's recorded outcome
is the delivery outcome of its own exchange. -/
theorem orderCreated_outcomes_isolated_witness :
    0 < (triggerOrderCreated httpOk200 "T" ordFix [wbFix1, wbFix2]).length ∧
    ((triggerOrderCreated httpOk200 "T" ordFix [wbFix1, wbFix2]).get ⟨0, by decide⟩).2 =
      deliveryOutcome
        (httpOk200
          (((triggerOrderCreated httpOk200 "T" ordFix [wbFix1, wbFix2]).get ⟨0, by decide⟩).1)) :=
  ⟨by decide,
   (orderCreated_outcomes_isolated httpOk200 "T" ordFix [wbFix1, wbFix2]).2 0 (by decide)⟩

/-! ## Claim C5: `syncProducts` idempotence

The proof characterizes a `syncProducts` pass over a store that already
contains every draft key as `syncTransform`, shows a first pass leaves the
first product of each drafted key holding the last draft's field values,
and concludes that a second pass only refreshes `syncedAt` stamps. -/

theorem productOfDraft_id (d : InsertProduct) (i t : Nat) :
    (productOfDraft d i t).id = i := rfl

theorem productOfDraft_key (d : InsertProduct) (i t : Nat) :
    (productOfDraft d i t).shopifyId = d.shopifyId := rfl

theorem find?_map_pointwise {α : Type} (g : α → α) (p : α → Bool) (l : List α)
    (h : ∀ x ∈ l, p (g x) = p x) : (l.map g).find? p = (l.find? p).map g := by
  induction l with
  | nil => rfl
  | cons x t ih =>
      have hx := h x (List.mem_cons_self x t)
      rw [List.map_cons]
      cases hpx : p x with
      | true =>
          rw [List.find?_cons_of_pos _ (hx.trans hpx), List.find?_cons_of_pos _ hpx]
          rfl
      | false =>
          rw [List.find?_cons_of_neg _ (by rw [hx, hpx]; simp),
              List.find?_cons_of_neg _ (by rw [hpx]; simp),
              ih (fun y hy => h y (List.mem_cons_of_mem x hy))]

theorem mem_id_unique {ps : List Product}
    (hnd : (ps.map (fun p => p.id)).Nodup) {p q : Product}
    (hp : p ∈ ps) (hq : q ∈ ps) (hid : p.id = q.id) : p = q :=
  List.inj_on_of_nodup_map hnd hp hq hid

theorem find?_id_self {ps : List Product}
    (hnd : (ps.map (fun p => p.id)).Nodup) {e : Product} (he : e ∈ ps) :
    ps.find? (fun q => q.id == e.id) = some e := by
  cases hq : ps.find? (fun q => q.id == e.id) with
  | none =>
      exfalso
      have := List.find?_eq_none.mp hq e he
      simp at this
  | some q =>
      have hmem := List.mem_of_find?_eq_some hq
      have hpq : q.id = e.id := by
        have := List.find?_some hq
        simpa using this
      rw [mem_id_unique hnd hmem he hpq]

theorem syncOne_update (now : Nat) (ps : List Product) (s : MemStorage)
    (d : InsertProduct) (e : Product)
    (hf : s.products.find? (fun q => q.shopifyId == d.shopifyId) = some e)
    (hnd : (s.products.map (fun p => p.id)).Nodup) :
    MemStorage.syncOne now (ps, s) d =
      (ps ++ [productOfDraft d e.id now],
       { s with products :=
           (s.products.map (fun q => if q.id == e.id then productOfDraft d e.id now else q)) }) := by
  have he : e ∈ s.products := List.mem_of_find?_eq_some hf
  unfold MemStorage.syncOne MemStorage.getProductByShopifyId MemStorage.updateProduct
  simp only [hf, find?_id_self hnd he]

theorem syncOne_create (now : Nat) (ps : List Product) (s : MemStorage)
    (d : InsertProduct)
    (hf : s.products.find? (fun q => q.shopifyId == d.shopifyId) = none) :
    MemStorage.syncOne now (ps, s) d =
      (ps ++ [productOfDraft d s.currentId now],
       { s with products := s.products ++ [productOfDraft d s.currentId now],
                currentId := s.currentId + 1 }) := by
  unfold MemStorage.syncOne MemStorage.getProductByShopifyId MemStorage.createProduct
  rw [hf]

theorem updBranch_id (now : Nat) (d : InsertProduct) (e q : Product) :
    (if q.id == e.id then productOfDraft d e.id now else q).id = q.id := by
  by_cases h : q.id = e.id
  · rw [if_pos (by simpa using h), productOfDraft_id, h]
  · rw [if_neg (by simpa using h)]

theorem updBranch_key (now : Nat) (d : InsertProduct) (e : Product)
    (hkey : e.shopifyId = d.shopifyId) {ps : List Product}
    (hnd : (ps.map (fun p => p.id)).Nodup) (he : e ∈ ps) :
    ∀ q ∈ ps,
      (if q.id == e.id then productOfDraft d e.id now else q).shopifyId = q.shopifyId := by
  intro q hq
  by_cases h : q.id = e.id
  · have hqe : q = e := mem_id_unique hnd hq he h
    rw [if_pos (by simpa using h), productOfDraft_key, ← hkey, hqe]
  · rw [if_neg (by simpa using h)]

theorem updBranch_other (now : Nat) (d : InsertProduct) (e : Product)
    {ps : List Product} (hnd : (ps.map (fun p => p.id)).Nodup) (he : e ∈ ps)
    {q : Product} (hq : q ∈ ps) (hne : q ≠ e) :
    (if q.id == e.id then productOfDraft d e.id now else q) = q := by
  rw [if_neg]
  intro h
  exact hne (mem_id_unique hnd hq he (by simpa using h))

theorem syncOne_wf (now : Nat) (ps : List Product) (s : MemStorage)
    (d : InsertProduct) (h : ProductsWF s) :
    ProductsWF (MemStorage.syncOne now (ps, s) d).2 := by
  cases hf : s.products.find? (fun q => q.shopifyId == d.shopifyId) with
  | some e =>
      rw [syncOne_update now ps s d e hf h.1]
      have hids : (s.products.map
            (fun q => if q.id == e.id then productOfDraft d e.id now else q)).map
          (fun p => p.id) = s.products.map (fun p => p.id) := by
        rw [List.map_map]
        exact List.map_congr_left (fun q _ => updBranch_id now d e q)
      constructor
      · show ((s.products.map
            (fun q => if q.id == e.id then productOfDraft d e.id now else q)).map
            (fun p => p.id)).Nodup
        rw [hids]; exact h.1
      · intro p hp
        rcases List.mem_map.mp hp with ⟨q, hq, rfl⟩
        show (if q.id == e.id then productOfDraft d e.id now else q).id < s.currentId
        rw [updBranch_id now d e q]
        exact h.2 q hq
  | none =>
      rw [syncOne_create now ps s d hf]
      constructor
      · show ((s.products ++ [productOfDraft d s.currentId now]).map (fun p => p.id)).Nodup
        rw [List.map_append]
        rw [List.nodup_append]
        refine ⟨h.1, List.nodup_singleton _, ?_⟩
        intro a ha hb
        simp only [List.map_cons, List.map_nil, List.mem_singleton] at hb
        rcases List.mem_map.mp ha with ⟨q, hq, rfl⟩
        have := h.2 q hq
        rw [show (productOfDraft d s.currentId now).id = s.currentId from rfl] at hb
        omega
      · intro p hp
        rcases List.mem_append.mp hp with hp | hp
        · have := h.2 p hp
          show p.id < s.currentId + 1
          omega
        · simp only [List.mem_singleton] at hp
          rw [hp]
          show s.currentId < s.currentId + 1
          omega

theorem syncFold_wf (now : Nat) (l : List InsertProduct) :
    ∀ (ps : List Product) (s : MemStorage), ProductsWF s →
      ProductsWF (l.foldl (MemStorage.syncOne now) (ps, s)).2 := by
  induction l with
  | nil => intro ps s h; exact h
  | cons d rest ih =>
      intro ps s h
      simp only [List.foldl_cons]
      exact ih _ _ (syncOne_wf now ps s d h)

theorem found_key_eq {ps : List Product} {d : InsertProduct} {e : Product}
    (hf : ps.find? (fun q => q.shopifyId == d.shopifyId) = some e) :
    e.shopifyId = d.shopifyId := by
  have := List.find?_some hf
  simpa using this

theorem syncOne_find_key_update (now : Nat) (ps : List Product) (s : MemStorage)
    (d : InsertProduct) (e : Product) (k : Option String)
    (hf : s.products.find? (fun q => q.shopifyId == d.shopifyId) = some e)
    (hnd : (s.products.map (fun p => p.id)).Nodup) :
    ((MemStorage.syncOne now (ps, s) d).2).products.find? (fun q => q.shopifyId == k) =
      (s.products.find? (fun q => q.shopifyId == k)).map
        (fun q => if q.id == e.id then productOfDraft d e.id now else q) := by
  rw [syncOne_update now ps s d e hf hnd]
  show (s.products.map
      (fun q => if q.id == e.id then productOfDraft d e.id now else q)).find?
        (fun q => q.shopifyId == k) = _
  refine find?_map_pointwise _ _ _ ?_
  intro q hq
  rw [updBranch_key now d e (found_key_eq hf) hnd (List.mem_of_find?_eq_some hf) q hq]

theorem syncOne_key_mono (now : Nat) (ps : List Product) (s : MemStorage)
    (d : InsertProduct) (k : Option String) (hwf : ProductsWF s)
    (h : (s.products.find? (fun q => q.shopifyId == k)).isSome) :
    ((((MemStorage.syncOne now (ps, s) d).2).products.find?
        (fun q => q.shopifyId == k))).isSome := by
  cases hf : s.products.find? (fun q => q.shopifyId == d.shopifyId) with
  | some e =>
      rw [syncOne_find_key_update now ps s d e k hf hwf.1]
      cases hq : s.products.find? (fun q => q.shopifyId == k) with
      | none => rw [hq] at h; simp at h
      | some q => rfl
  | none =>
      rw [syncOne_create now ps s d hf]
      show ((s.products ++ [productOfDraft d s.currentId now]).find?
          (fun q => q.shopifyId == k)).isSome
      rw [List.find?_append]
      cases hq : s.products.find? (fun q => q.shopifyId == k) with
      | none => rw [hq] at h; simp at h
      | some q => rfl

theorem syncOne_key_self (now : Nat) (ps : List Product) (s : MemStorage)
    (d : InsertProduct) (hwf : ProductsWF s) :
    ((((MemStorage.syncOne now (ps, s) d).2).products.find?
        (fun q => q.shopifyId == d.shopifyId))).isSome := by
  cases hf : s.products.find? (fun q => q.shopifyId == d.shopifyId) with
  | some e =>
      rw [syncOne_find_key_update now ps s d e d.shopifyId hf hwf.1, hf]
      rfl
  | none =>
      rw [syncOne_create now ps s d hf]
      show ((s.products ++ [productOfDraft d s.currentId now]).find?
          (fun q => q.shopifyId == d.shopifyId)).isSome
      rw [List.find?_append, hf]
      have hp : ((productOfDraft d s.currentId now).shopifyId == d.shopifyId) = true := by
        rw [productOfDraft_key]; exact beq_self_eq_true _
      have hfind : List.find? (fun q => q.shopifyId == d.shopifyId)
          [productOfDraft d s.currentId now] = some (productOfDraft d s.currentId now) :=
        List.find?_cons_of_pos _ hp
      rw [hfind]
      rfl

theorem syncOne_key_other (now : Nat) (ps : List Product) (s : MemStorage)
    (d : InsertProduct) (k : Option String) (hwf : ProductsWF s)
    (hk : k ≠ d.shopifyId) :
    ((MemStorage.syncOne now (ps, s) d).2).products.find? (fun q => q.shopifyId == k) =
      s.products.find? (fun q => q.shopifyId == k) := by
  cases hf : s.products.find? (fun q => q.shopifyId == d.shopifyId) with
  | some e =>
      rw [syncOne_find_key_update now ps s d e k hf hwf.1]
      cases hq : s.products.find? (fun q => q.shopifyId == k) with
      | none => rfl
      | some q =>
          show some (if q.id == e.id then productOfDraft d e.id now else q) = some q
          congr 1
          refine updBranch_other now d e hwf.1 (List.mem_of_find?_eq_some hf)
            (List.mem_of_find?_eq_some hq) ?_
          intro hqe
          have hqk : q.shopifyId = k := by simpa using List.find?_some hq
          rw [hqe, found_key_eq hf] at hqk
          exact hk hqk.symm
  | none =>
      rw [syncOne_create now ps s d hf]
      show (s.products ++ [productOfDraft d s.currentId now]).find?
          (fun q => q.shopifyId == k) = _
      rw [List.find?_append]
      cases hq : s.products.find? (fun q => q.shopifyId == k) with
      | some q => rfl
      | none =>
          have hp : ((productOfDraft d s.currentId now).shopifyId == k) = false := by
            rw [productOfDraft_key]
            exact beq_eq_false_iff_ne.mpr (fun h => hk h.symm)
          have hfind : List.find? (fun q => q.shopifyId == k)
              [productOfDraft d s.currentId now] = none :=
            List.find?_cons_of_neg _ (by rw [hp]; simp)
          rw [hfind]
          rfl

theorem syncFold_key_mono (now : Nat) (l : List InsertProduct) (k : Option String) :
    ∀ (ps : List Product) (s : MemStorage), ProductsWF s →
      (s.products.find? (fun q => q.shopifyId == k)).isSome →
      (((l.foldl (MemStorage.syncOne now) (ps, s)).2).products.find?
          (fun q => q.shopifyId == k)).isSome := by
  induction l with
  | nil => intro ps s _ h; exact h
  | cons d rest ih =>
      intro ps s hwf h
      simp only [List.foldl_cons]
      exact ih _ _ (syncOne_wf now ps s d hwf) (syncOne_key_mono now ps s d k hwf h)

theorem syncFold_key_other (now : Nat) (l : List InsertProduct) (k : Option String)
    (hk : k ∉ l.map (fun d => d.shopifyId)) :
    ∀ (ps : List Product) (s : MemStorage), ProductsWF s →
      ((l.foldl (MemStorage.syncOne now) (ps, s)).2).products.find?
          (fun q => q.shopifyId == k) =
        s.products.find? (fun q => q.shopifyId == k) := by
  induction l with
  | nil => intro ps s _; rfl
  | cons d rest ih =>
      intro ps s hwf
      simp only [List.map_cons, List.mem_cons, not_or] at hk
      simp only [List.foldl_cons]
      rw [ih hk.2 _ _ (syncOne_wf now ps s d hwf)]
      exact syncOne_key_other now ps s d k hwf hk.1

theorem syncFold_covered (now : Nat) (l : List InsertProduct) :
    ∀ (ps : List Product) (s : MemStorage), ProductsWF s →
      ∀ d ∈ l, (((l.foldl (MemStorage.syncOne now) (ps, s)).2).products.find?
          (fun q => q.shopifyId == d.shopifyId)).isSome := by
  induction l with
  | nil => intro ps s _ d hd; simp at hd
  | cons d₀ rest ih =>
      intro ps s hwf d hd
      simp only [List.foldl_cons]
      rcases List.mem_cons.mp hd with rfl | hd
      · exact syncFold_key_mono now rest d.shopifyId _ _
          (syncOne_wf now ps s d hwf) (syncOne_key_self now ps s d hwf)
      · exact ih _ _ (syncOne_wf now ps s d₀ hwf) d hd

theorem lastDraftFor_of_mem_rest {rest : List InsertProduct} {k : Option String}
    (h : k ∈ rest.map (fun d => d.shopifyId)) (d₀ : InsertProduct) :
    lastDraftFor (d₀ :: rest) k = lastDraftFor rest k := by
  unfold lastDraftFor
  rw [List.reverse_cons, List.find?_append]
  have hs : ((rest.reverse).find? (fun d => d.shopifyId == k)).isSome := by
    rw [List.find?_isSome]
    rcases List.mem_map.mp h with ⟨d₁, hd₁, rfl⟩
    exact ⟨d₁, List.mem_reverse.mpr hd₁, beq_self_eq_true _⟩
  cases hr : (rest.reverse).find? (fun d => d.shopifyId == k) with
  | some v => rfl
  | none => rw [hr] at hs; simp at hs

theorem lastDraftFor_head {rest : List InsertProduct} {k : Option String}
    {d₀ : InsertProduct} (h : k ∉ rest.map (fun d => d.shopifyId))
    (hk : d₀.shopifyId = k) : lastDraftFor (d₀ :: rest) k = some d₀ := by
  unfold lastDraftFor
  rw [List.reverse_cons, List.find?_append]
  have hnone : (rest.reverse).find? (fun d => d.shopifyId == k) = none := by
    rw [List.find?_eq_none]
    intro d₁ hd₁ hp
    have hkey : d₁.shopifyId = k := by simpa using hp
    exact h (List.mem_map.mpr ⟨d₁, List.mem_reverse.mp hd₁, hkey⟩)
  rw [hnone]
  have hp : (d₀.shopifyId == k) = true := by rw [hk]; exact beq_self_eq_true _
  have hfind : List.find? (fun d => d.shopifyId == k) [d₀] = some d₀ :=
    List.find?_cons_of_pos _ hp
  rw [hfind]
  rfl

theorem syncFold_lastDraft (now : Nat) (l : List InsertProduct) :
    ∀ (ps : List Product) (s : MemStorage), ProductsWF s →
      ∀ k, k ∈ l.map (fun d => d.shopifyId) →
      ∃ p d₁,
        ((l.foldl (MemStorage.syncOne now) (ps, s)).2).products.find?
            (fun q => q.shopifyId == k) = some p ∧
        lastDraftFor l k = some d₁ ∧ p = productOfDraft d₁ p.id now := by
  induction l with
  | nil => intro ps s _ k hk; simp at hk
  | cons d₀ rest ih =>
      intro ps s hwf k hk
      simp only [List.foldl_cons]
      by_cases hkr : k ∈ rest.map (fun d => d.shopifyId)
      · obtain ⟨p, d₁, h1, h2, h3⟩ := ih _ _ (syncOne_wf now ps s d₀ hwf) k hkr
        exact ⟨p, d₁, h1, by rw [lastDraftFor_of_mem_rest hkr d₀]; exact h2, h3⟩
      · have hk0 : d₀.shopifyId = k := by
          simp only [List.map_cons, List.mem_cons] at hk
          rcases hk with hk | hk
          · exact hk.symm
          · exact absurd hk hkr
        rw [syncFold_key_other now rest k hkr _ _ (syncOne_wf now ps s d₀ hwf)]
        subst hk0
        cases hf : s.products.find? (fun q => q.shopifyId == d₀.shopifyId) with
        | some e =>
            refine ⟨productOfDraft d₀ e.id now, d₀, ?_, lastDraftFor_head hkr rfl, rfl⟩
            rw [syncOne_find_key_update now ps s d₀ e d₀.shopifyId hf hwf.1, hf]
            show some (if e.id == e.id then productOfDraft d₀ e.id now else e) =
              some (productOfDraft d₀ e.id now)
            congr 1
            rw [if_pos (beq_self_eq_true e.id)]
        | none =>
            refine ⟨productOfDraft d₀ s.currentId now, d₀, ?_, lastDraftFor_head hkr rfl, rfl⟩
            rw [syncOne_create now ps s d₀ hf]
            show (s.products ++ [productOfDraft d₀ s.currentId now]).find?
                (fun q => q.shopifyId == d₀.shopifyId) = _
            rw [List.find?_append, hf]
            have hp : ((productOfDraft d₀ s.currentId now).shopifyId == d₀.shopifyId) = true := by
              rw [productOfDraft_key]; exact beq_self_eq_true _
            have hfind : List.find? (fun q => q.shopifyId == d₀.shopifyId)
                [productOfDraft d₀ s.currentId now] = some (productOfDraft d₀ s.currentId now) :=
              List.find?_cons_of_pos _ hp
            rw [hfind]
            rfl

theorem syncTransform_nil (now : Nat) (ps : List Product) :
    syncTransform now [] ps = ps := by
  unfold syncTransform
  have h : ∀ p ∈ ps,
      (if ps.find? (fun q => q.shopifyId == p.shopifyId) = some p ∧
          p.shopifyId ∈ ([] : List InsertProduct).map (fun d => d.shopifyId) then
        match lastDraftFor [] p.shopifyId with
        | some d => productOfDraft d p.id now
        | none => p
      else p) = id p := by
    intro p _
    rw [if_neg]
    · rfl
    · rintro ⟨-, hmem⟩
      simp at hmem
  rw [List.map_congr_left h, List.map_id]

theorem lastDraftFor_isSome {rest : List InsertProduct} {k : Option String}
    (h3 : k ∈ rest.map (fun d => d.shopifyId)) :
    ∃ d₁, lastDraftFor rest k = some d₁ := by
  cases hcase : lastDraftFor rest k with
  | some d₁ => exact ⟨d₁, rfl⟩
  | none =>
      exfalso
      unfold lastDraftFor at hcase
      rw [List.find?_eq_none] at hcase
      rcases List.mem_map.mp h3 with ⟨d₁, hd₁, hkey⟩
      have hb : (d₁.shopifyId == k) = true := by rw [hkey]; exact beq_self_eq_true _
      exact hcase d₁ (List.mem_reverse.mpr hd₁) hb

theorem syncTransform_step (now : Nat) (d₀ : InsertProduct) (rest : List InsertProduct)
    (ps : List Product) (hnd : (ps.map (fun p => p.id)).Nodup)
    (e : Product) (hf : ps.find? (fun q => q.shopifyId == d₀.shopifyId) = some e) :
    syncTransform now rest
        (ps.map (fun q => if q.id == e.id then productOfDraft d₀ e.id now else q)) =
      syncTransform now (d₀ :: rest) ps := by
  have he : e ∈ ps := List.mem_of_find?_eq_some hf
  have hek : e.shopifyId = d₀.shopifyId := found_key_eq hf
  have keymap := updBranch_key now d₀ e hek hnd he
  have findmap : ∀ k, (ps.map
        (fun q => if q.id == e.id then productOfDraft d₀ e.id now else q)).find?
        (fun r => r.shopifyId == k) =
      (ps.find? (fun r => r.shopifyId == k)).map
        (fun q => if q.id == e.id then productOfDraft d₀ e.id now else q) := by
    intro k
    refine find?_map_pointwise _ _ _ ?_
    intro x hx
    rw [keymap x hx]
  unfold syncTransform
  rw [List.map_map]
  refine List.map_congr_left ?_
  intro q hq
  show (if (ps.map (fun q => if q.id == e.id then productOfDraft d₀ e.id now else q)).find?
        (fun r => r.shopifyId ==
          (if q.id == e.id then productOfDraft d₀ e.id now else q).shopifyId) =
        some (if q.id == e.id then productOfDraft d₀ e.id now else q) ∧
      (if q.id == e.id then productOfDraft d₀ e.id now else q).shopifyId ∈
        rest.map (fun d => d.shopifyId) then
    match lastDraftFor rest
        (if q.id == e.id then productOfDraft d₀ e.id now else q).shopifyId with
    | some d => productOfDraft d
        (if q.id == e.id then productOfDraft d₀ e.id now else q).id now
    | none => (if q.id == e.id then productOfDraft d₀ e.id now else q)
    else (if q.id == e.id then productOfDraft d₀ e.id now else q)) = _
  rw [keymap q hq, updBranch_id now d₀ e q, findmap q.shopifyId]
  by_cases h1 : ps.find? (fun r => r.shopifyId == q.shopifyId) = some q
  · rw [h1, Option.map_some']
    by_cases h2 : q.shopifyId = d₀.shopifyId
    · -- q is the first product with the freshly processed key, so q = e
      have hqe : q = e := by
        have hfq : ps.find? (fun r => r.shopifyId == d₀.shopifyId) = some q := by
          rw [← h2]; exact h1
        rw [hfq] at hf
        exact (Option.some.injEq _ _).mp hf
      subst hqe
      have hge : (if q.id == q.id then productOfDraft d₀ q.id now else q) =
          productOfDraft d₀ q.id now := if_pos (beq_self_eq_true q.id)
      rw [hge]
      by_cases h3 : q.shopifyId ∈ rest.map (fun d => d.shopifyId)
      · obtain ⟨d₁, hld⟩ := lastDraftFor_isSome h3
        have hmem2 : q.shopifyId ∈ (d₀ :: rest).map (fun d => d.shopifyId) := by
          rw [List.map_cons]; exact List.mem_cons_of_mem _ h3
        rw [if_pos ⟨rfl, h3⟩, hld, if_pos ⟨rfl, hmem2⟩,
            lastDraftFor_of_mem_rest h3 d₀, hld]
      · have hmem2 : q.shopifyId ∈ (d₀ :: rest).map (fun d => d.shopifyId) := by
          rw [List.map_cons, h2]; exact List.mem_cons_self _ _
        rw [if_neg (fun hc => h3 hc.2), if_pos ⟨rfl, hmem2⟩, lastDraftFor_head h3 h2.symm]
    · -- key untouched by d₀; q is not e
      have hqe : q ≠ e := fun hcontra => h2 (by rw [hcontra, hek])
      have hgq : (if q.id == e.id then productOfDraft d₀ e.id now else q) = q :=
        updBranch_other now d₀ e hnd he hq hqe
      rw [hgq]
      by_cases h3 : q.shopifyId ∈ rest.map (fun d => d.shopifyId)
      · obtain ⟨d₁, hld⟩ := lastDraftFor_isSome h3
        have hmem2 : q.shopifyId ∈ (d₀ :: rest).map (fun d => d.shopifyId) := by
          rw [List.map_cons]; exact List.mem_cons_of_mem _ h3
        rw [if_pos ⟨rfl, h3⟩, hld, if_pos ⟨rfl, hmem2⟩,
            lastDraftFor_of_mem_rest h3 d₀, hld]
      · rw [if_neg (fun hc => h3 hc.2), if_neg ?hneg]
        case hneg =>
          rintro ⟨-, hc2⟩
          rw [List.map_cons] at hc2
          rcases List.mem_cons.mp hc2 with hcx | hcx
          · exact h2 hcx
          · exact h3 hcx
  · -- q is not the first product carrying its key: untouched on both sides
    have hqe : q ≠ e := by
      intro hcontra
      apply h1
      rw [hcontra, hek]
      exact hf
    have hgq : (if q.id == e.id then productOfDraft d₀ e.id now else q) = q :=
      updBranch_other now d₀ e hnd he hq hqe
    rw [hgq]
    rw [if_neg ?hnegL, if_neg (fun hc => h1 hc.1)]
    case hnegL =>
      rintro ⟨hmap, -⟩
      apply h1
      cases hx : ps.find? (fun r => r.shopifyId == q.shopifyId) with
      | none => rw [hx] at hmap; simp at hmap
      | some x =>
          rw [hx, Option.map_some'] at hmap
          have hxq : (if x.id == e.id then productOfDraft d₀ e.id now else x) = q :=
            (Option.some.injEq _ _).mp hmap
          have hid : x.id = q.id := by
            rw [← hxq, updBranch_id now d₀ e x]
          exact congrArg some (mem_id_unique hnd (List.mem_of_find?_eq_some hx) hq hid)

theorem syncFold_transform (now : Nat) (l : List InsertProduct) :
    ∀ (ps : List Product) (s : MemStorage), ProductsWF s →
      (∀ d ∈ l, (s.products.find? (fun q => q.shopifyId == d.shopifyId)).isSome) →
      (l.foldl (MemStorage.syncOne now) (ps, s)).2 =
        { s with products := syncTransform now l s.products } := by
  induction l with
  | nil =>
      intro ps s _ _
      show s = _
      rw [syncTransform_nil]
  | cons d₀ rest ih =>
      intro ps s hwf hcov
      obtain ⟨e, hf⟩ : ∃ e,
          s.products.find? (fun q => q.shopifyId == d₀.shopifyId) = some e := by
        have hs := hcov d₀ (List.mem_cons_self _ _)
        cases hx : s.products.find? (fun q => q.shopifyId == d₀.shopifyId) with
        | some e => exact ⟨e, rfl⟩
        | none => rw [hx] at hs; simp at hs
      have hwf' : ProductsWF ({ s with products :=
          (s.products.map (fun q => if q.id == e.id then productOfDraft d₀ e.id now else q)) }) := by
        have h := syncOne_wf now ps s d₀ hwf
        rw [syncOne_update now ps s d₀ e hf hwf.1] at h
        exact h
      have hcov' : ∀ d ∈ rest, (({ s with products :=
            (s.products.map (fun q => if q.id == e.id then productOfDraft d₀ e.id now else q)) } :
            MemStorage).products.find? (fun q => q.shopifyId == d.shopifyId)).isSome := by
        intro d hd
        have h := syncOne_key_mono now ps s d₀ d.shopifyId hwf
          (hcov d (List.mem_cons_of_mem _ hd))
        rw [syncOne_update now ps s d₀ e hf hwf.1] at h
        exact h
      simp only [List.foldl_cons]
      rw [syncOne_update now ps s d₀ e hf hwf.1]
      rw [ih _ _ hwf' hcov']
      show { s with products := (syncTransform now rest
          (s.products.map (fun (q : Product) =>
            if q.id == e.id then productOfDraft d₀ e.id now else q))) } = _
      rw [syncTransform_step now d₀ rest s.products hwf.1 e hf]

/-- C5: for every initial store with well-formed product ids and every
draft list whose drafts all carry external ids, running `syncProducts`
twice (with clocks `now₁`, then `now₂`) leaves the store in the same final
state as running it once — the same records with the same ids, external
ids, and field values, differing at most in the `syncedAt` stamps — because
the second pass finds every draft's external id already present and updates
in place instead of inserting. -/
theorem syncProducts_idempotent (now₁ now₂ : Nat) (l : List InsertProduct)
    (s : MemStorage) (hwf : ProductsWF s) (hkeys : ∀ d ∈ l, d.shopifyId.isSome) :
    eraseSync (MemStorage.syncProducts now₂ l
        (MemStorage.syncProducts now₁ l s).2).2 =
      eraseSync (MemStorage.syncProducts now₁ l s).2 := by
  unfold MemStorage.syncProducts
  set s₁ := (l.foldl (MemStorage.syncOne now₁) (([], s) : List Product × MemStorage)).2 with hs₁
  have hwf₁ : ProductsWF s₁ := syncFold_wf now₁ l [] s hwf
  have hcov₁ : ∀ d ∈ l,
      (s₁.products.find? (fun q => q.shopifyId == d.shopifyId)).isSome :=
    fun d hd => syncFold_covered now₁ l [] s hwf d hd
  rw [syncFold_transform now₂ l [] s₁ hwf₁ hcov₁]
  show ({ s₁ with products :=
      ((syncTransform now₂ l s₁.products).map (fun p => { p with syncedAt := 0 })) } :
      MemStorage) =
    { s₁ with products := (s₁.products.map (fun p => { p with syncedAt := 0 })) }
  congr 1
  unfold syncTransform
  rw [List.map_map]
  refine List.map_congr_left ?_
  intro q hq
  by_cases hcond : s₁.products.find? (fun r => r.shopifyId == q.shopifyId) = some q ∧
      q.shopifyId ∈ l.map (fun d => d.shopifyId)
  · obtain ⟨hfind, hmem⟩ := hcond
    obtain ⟨p, d₁, hp1, hp2, hp3⟩ := syncFold_lastDraft now₁ l [] s hwf q.shopifyId hmem
    have hpq : p = q := by
      rw [hfind] at hp1
      exact ((Option.some.injEq _ _).mp hp1).symm
    rw [hpq] at hp3
    show (fun r => ({ r with syncedAt := 0 } : Product))
        (if s₁.products.find? (fun x => x.shopifyId == q.shopifyId) = some q ∧
            q.shopifyId ∈ l.map (fun d => d.shopifyId) then
          (match lastDraftFor l q.shopifyId with
           | some d => productOfDraft d q.id now₂
           | none => q)
        else q) = { q with syncedAt := 0 }
    rw [if_pos ⟨hfind, hmem⟩, hp2]
    conv_rhs => rw [hp3]
    rfl
  · show (fun r => ({ r with syncedAt := 0 } : Product))
        (if s₁.products.find? (fun x => x.shopifyId == q.shopifyId) = some q ∧
            q.shopifyId ∈ l.map (fun d => d.shopifyId) then
          (match lastDraftFor l q.shopifyId with
           | some d => productOfDraft d q.id now₂
           | none => q)
        else q) = { q with syncedAt := 0 }
    rw [if_neg hcond]

/-! ## Claim C6: the `POST /api/webhook/chat` rejection paths -/

set_option maxRecDepth 100000

/-- C6 (code bug evidence): a missing signature header yields 401 and a
missing required body field yields 400, each without touching the store —
but a signature whose byte length differs from the correct tag's 64 bytes
makes the verification throw, and the route's catch-all turns it into a
500 instead of the specified 401 (still without touching the store). -/
theorem webhookChat_rejections :
    webhookChatHandler 0 aiFixOk reqNoSig MemStorage.init = (401, MemStorage.init) ∧
    webhookChatHandler 0 aiFixOk reqBadSigLen MemStorage.init = (500, MemStorage.init) ∧
    webhookChatHandler 0 aiFixOk reqValidNoMsg MemStorage.init = (400, MemStorage.init) := by
  refine ⟨rfl, ?_, ?_⟩
  · unfold webhookChatHandler verifyIncomingWebhook
    simp only [reqBadSigLen, chatBodyFix, Option.getD_some]
    rw [verifySignature_error_of_length "x" "deadbeef" "k" (by decide)]
    rfl
  · rfl

/-- Witness for C5: a concrete double sync of one keyed draft starting
from the empty store. -/
theorem syncProducts_idempotent_witness :
    ProductsWF MemStorage.init ∧ (∀ d ∈ [draftFix], d.shopifyId.isSome) ∧
    eraseSync (MemStorage.syncProducts 20 [draftFix]
        (MemStorage.syncProducts 10 [draftFix] MemStorage.init).2).2 =
      eraseSync (MemStorage.syncProducts 10 [draftFix] MemStorage.init).2 :=
  ⟨by decide, by decide,
   syncProducts_idempotent 10 20 [draftFix] MemStorage.init (by decide) (by decide)⟩

/-! ## Claim C7: `getMetrics` -/

theorem revenue_foldl (l : List Order)
    (h : ∀ o ∈ l, (parseDec o.totalAmount).isSome) :
    ∀ a : Rat,
      l.foldl (fun acc o => do
        let x ← acc
        let v ← parseDec o.totalAmount
        pure (x + v)) (some a) =
      some (a + ((l.map (fun o => (parseDec o.totalAmount).getD 0)).sum)) := by
  induction l with
  | nil => intro a; simp
  | cons o t ih =>
      intro a
      obtain ⟨v, hv⟩ := Option.isSome_iff_exists.mp (h o (List.mem_cons_self o t))
      simp only [List.foldl_cons]
      have hstep : (do
          let x ← (some a : Option Rat)
          let w ← parseDec o.totalAmount
          pure (x + w)) = some (a + v) := by rw [hv]; rfl
      rw [hstep, ih (fun x hx => h x (List.mem_cons_of_mem _ hx))]
      simp [hv, add_assoc]

/-- Counterexample to C7 as stated: with one conversation and one order
whose `conversationId` is null, the code's conversion rate counts the null
group (`new Set` contains `null`), giving 1, while the number of distinct
conversation ids actually appearing among the orders is 0. -/
theorem getMetrics_counts_null_conversation :
    (MemStorage.getMetrics stFixC7).conversionRate ≠ specConversionRate stFixC7 := by
  have h1 : (MemStorage.getMetrics stFixC7).conversionRate = 1 := by
    show (if stFixC7.conversations.length > 0 then
        ((((stFixC7.orders.map (fun o => o.conversationId)).dedup).length : Rat) /
          (stFixC7.conversations.length : Rat)) else 0) = 1
    norm_num [stFixC7, convFix, ordNullConv]
  have h2 : specConversionRate stFixC7 = 0 := by
    unfold specConversionRate
    norm_num [stFixC7, convFix, ordNullConv]
  rw [h1, h2]
  norm_num

/-- C7 (amended): `getMetrics` computes the active count, the conversion
rate as the number of distinct values of the order `conversationId` field —
null counted as a value — over the total conversation count (0 when that is
0), total revenue as the sum over completed orders, and the average order
value as revenue over completed count (0 when that is 0); and on the empty
store every figure is 0 without any division fault. -/
theorem getMetrics_spec (s : MemStorage)
    (hparse : ∀ o ∈ s.orders, o.status == "completed" →
      (parseDec o.totalAmount).isSome) :
    MemStorage.getMetrics s =
      { activeConversations := s.conversations.countP (fun c => c.status == "active"),
        totalConversations := s.conversations.length,
        conversionRate :=
          (if s.conversations.length = 0 then 0 else
            (((s.orders.map (fun o => o.conversationId)).toFinset.card : Rat) /
              (s.conversations.length : Rat))),
        totalRevenue := some (specCompletedSum s),
        averageOrderValue :=
          (some (if specCompletedCount s = 0 then 0 else
            specCompletedSum s / (specCompletedCount s : Rat))),
        totalOrders := s.orders.length } ∧
    MemStorage.getMetrics MemStorage.init = ⟨0, 0, 0, some 0, some 0, 0⟩ := by
  constructor
  · have hmemp : ∀ o ∈ s.orders.filter (fun o => o.status == "completed"),
        (parseDec o.totalAmount).isSome := by
      intro o ho
      have h1 := List.of_mem_filter ho
      exact hparse o (List.mem_of_mem_filter ho) h1
    have hrev := revenue_foldl (s.orders.filter (fun o => o.status == "completed")) hmemp 0
    rw [zero_add] at hrev
    unfold MemStorage.getMetrics
    rw [Metrics.mk.injEq]
    refine ⟨(List.countP_eq_length_filter _ _).symm, rfl, ?_, hrev, ?_, rfl⟩
    · rcases Nat.eq_zero_or_pos s.conversations.length with hz | hpos
      · rw [if_neg (by omega), if_pos hz]
      · rw [if_pos hpos, if_neg (by omega)]
        have hcard : (s.orders.map (fun o => o.conversationId)).dedup.length =
            (s.orders.map (fun o => o.conversationId)).toFinset.card := by
          rw [← List.toFinset_card_of_nodup (List.nodup_dedup _)]
          congr 1
          ext a
          simp [List.mem_dedup]
        rw [hcard]
    · rcases Nat.eq_zero_or_pos
        (s.orders.filter (fun o => o.status == "completed")).length with hz | hpos
      · rw [if_neg (by omega)]
        unfold specCompletedCount
        rw [if_pos hz]
      · rw [if_pos hpos]
        unfold specCompletedCount
        rw [if_neg (by omega), hrev]
        rfl
  · decide

/-- Witness for C7: the amended characterization evaluated at the fixture
store (one conversation, one completed conversation-less order). -/
theorem getMetrics_spec_witness :
    (∀ o ∈ stFixC7.orders, o.status == "completed" →
      (parseDec o.totalAmount).isSome) ∧
    MemStorage.getMetrics stFixC7 =
      { activeConversations := stFixC7.conversations.countP (fun c => c.status == "active"),
        totalConversations := stFixC7.conversations.length,
        conversionRate :=
          (if stFixC7.conversations.length = 0 then 0 else
            (((stFixC7.orders.map (fun o => o.conversationId)).toFinset.card : Rat) /
              (stFixC7.conversations.length : Rat))),
        totalRevenue := some (specCompletedSum stFixC7),
        averageOrderValue :=
          (some (if specCompletedCount stFixC7 = 0 then 0 else
            specCompletedSum stFixC7 / (specCompletedCount stFixC7 : Rat))),
        totalOrders := stFixC7.orders.length } :=
  ⟨by decide, (getMetrics_spec stFixC7 (by decide)).1⟩

/-! ## Claim C8: globally monotone identifier allocation -/

theorem updateConversation_currentId (now id : Nat) (u : ConversationPatch)
    (s : MemStorage) :
    (MemStorage.updateConversation now id u s).2.currentId = s.currentId := by
  unfold MemStorage.updateConversation
  cases s.conversations.find? (fun c => c.id == id) <;> rfl

theorem updateProduct_currentId (now id : Nat) (d : InsertProduct) (s : MemStorage) :
    (MemStorage.updateProduct now id d s).2.currentId = s.currentId := by
  unfold MemStorage.updateProduct
  cases s.products.find? (fun p => p.id == id) <;> rfl

theorem updateOrder_currentId (now id : Nat) (u : OrderPatch) (s : MemStorage) :
    (MemStorage.updateOrder now id u s).2.currentId = s.currentId := by
  unfold MemStorage.updateOrder
  cases s.orders.find? (fun o => o.id == id) <;> rfl

theorem updateRecommendation_currentId (id : Nat) (u : RecommendationPatch)
    (s : MemStorage) :
    (MemStorage.updateRecommendation id u s).2.currentId = s.currentId := by
  unfold MemStorage.updateRecommendation
  cases s.recommendations.find? (fun r => r.id == id) <;> rfl

theorem updateWebhook_currentId (id : Nat) (u : WebhookPatch) (s : MemStorage) :
    (MemStorage.updateWebhook id u s).2.currentId = s.currentId := by
  unfold MemStorage.updateWebhook
  cases s.webhooks.find? (fun w => w.id == id) <;> rfl

theorem syncOneTr_cases (now : Nat) (acc : (List Product × MemStorage) × List Nat)
    (d : InsertProduct) :
    ((syncOneTr now acc d).2 = acc.2 ∧
      (syncOneTr now acc d).1.2.currentId = acc.1.2.currentId) ∨
    ((syncOneTr now acc d).2 = acc.2 ++ [acc.1.2.currentId] ∧
      (syncOneTr now acc d).1.2.currentId = acc.1.2.currentId + 1) := by
  unfold syncOneTr
  cases hf : MemStorage.getProductByShopifyId acc.1.2 d.shopifyId with
  | some e =>
      left
      refine ⟨rfl, ?_⟩
      show (MemStorage.syncOne now acc.1 d).2.currentId = acc.1.2.currentId
      unfold MemStorage.syncOne
      rw [hf]
      show (match MemStorage.updateProduct now e.id d acc.1.2 with
          | (u, s') => match u with
            | some updated => (acc.1.1 ++ [updated], s')
            | none => (acc.1.1, s')).2.currentId = acc.1.2.currentId
      unfold MemStorage.updateProduct
      cases acc.1.2.products.find? (fun p => p.id == e.id) <;> rfl
  | none =>
      right
      exact ⟨rfl, rfl⟩

theorem syncTr_fold_inv (now : Nat) (l : List InsertProduct) :
    ∀ acc : (List Product × MemStorage) × List Nat,
      ∃ fresh : List Nat,
        (l.foldl (syncOneTr now) acc).2 = acc.2 ++ fresh ∧
        fresh.Pairwise (· < ·) ∧
        (∀ a ∈ fresh, acc.1.2.currentId ≤ a ∧
          a < (l.foldl (syncOneTr now) acc).1.2.currentId) ∧
        acc.1.2.currentId ≤ (l.foldl (syncOneTr now) acc).1.2.currentId := by
  induction l with
  | nil =>
      intro acc
      exact ⟨[], (List.append_nil _).symm, List.Pairwise.nil, fun a ha => absurd ha
        (List.not_mem_nil a), Nat.le_refl _⟩
  | cons d rest ih =>
      intro acc
      obtain ⟨fresh, h1, h2, h3, h4⟩ := ih (syncOneTr now acc d)
      simp only [List.foldl_cons]
      rcases syncOneTr_cases now acc d with ⟨hids, hcur⟩ | ⟨hids, hcur⟩
      · exact ⟨fresh, by rw [h1, hids], h2,
          fun a ha => ⟨hcur ▸ (h3 a ha).1, (h3 a ha).2⟩, hcur ▸ h4⟩
      · refine ⟨acc.1.2.currentId :: fresh, ?_, ?_, ?_, ?_⟩
        · rw [h1, hids, List.append_assoc]
          rfl
        · rw [List.pairwise_cons]
          refine ⟨fun a ha => ?_, h2⟩
          have := (h3 a ha).1
          omega
        · intro a ha
          rcases List.mem_cons.mp ha with rfl | ha
          · refine ⟨Nat.le_refl _, ?_⟩
            have := hcur ▸ h4
            omega
          · have := h3 a ha
            omega
        · have := hcur ▸ h4
          omega

theorem runOp_ids (now : Nat) (s : MemStorage) (op : Op) :
    (runOp now s op).2.Pairwise (· < ·) ∧
    (∀ a ∈ (runOp now s op).2,
      s.currentId ≤ a ∧ a < (runOp now s op).1.currentId) ∧
    s.currentId ≤ (runOp now s op).1.currentId := by
  cases op with
  | createUser d =>
      refine ⟨List.pairwise_singleton _ _, ?_, Nat.le_succ _⟩
      intro a ha
      have ha' : a ∈ [s.currentId] := ha
      have hae : a = s.currentId := by simpa using ha'
      subst hae
      exact ⟨Nat.le_refl _, Nat.lt_succ_self _⟩
  | createConversation d =>
      refine ⟨List.pairwise_singleton _ _, ?_, Nat.le_succ _⟩
      intro a ha
      have ha' : a ∈ [s.currentId] := ha
      have hae : a = s.currentId := by simpa using ha'
      subst hae
      exact ⟨Nat.le_refl _, Nat.lt_succ_self _⟩
  | createMessage d =>
      refine ⟨List.pairwise_singleton _ _, ?_, Nat.le_succ _⟩
      intro a ha
      have ha' : a ∈ [s.currentId] := ha
      have hae : a = s.currentId := by simpa using ha'
      subst hae
      exact ⟨Nat.le_refl _, Nat.lt_succ_self _⟩
  | createProduct d =>
      refine ⟨List.pairwise_singleton _ _, ?_, Nat.le_succ _⟩
      intro a ha
      have ha' : a ∈ [s.currentId] := ha
      have hae : a = s.currentId := by simpa using ha'
      subst hae
      exact ⟨Nat.le_refl _, Nat.lt_succ_self _⟩
  | createOrder d =>
      refine ⟨List.pairwise_singleton _ _, ?_, Nat.le_succ _⟩
      intro a ha
      have ha' : a ∈ [s.currentId] := ha
      have hae : a = s.currentId := by simpa using ha'
      subst hae
      exact ⟨Nat.le_refl _, Nat.lt_succ_self _⟩
  | createRecommendation d =>
      refine ⟨List.pairwise_singleton _ _, ?_, Nat.le_succ _⟩
      intro a ha
      have ha' : a ∈ [s.currentId] := ha
      have hae : a = s.currentId := by simpa using ha'
      subst hae
      exact ⟨Nat.le_refl _, Nat.lt_succ_self _⟩
  | createWebhook d =>
      refine ⟨List.pairwise_singleton _ _, ?_, Nat.le_succ _⟩
      intro a ha
      have ha' : a ∈ [s.currentId] := ha
      have hae : a = s.currentId := by simpa using ha'
      subst hae
      exact ⟨Nat.le_refl _, Nat.lt_succ_self _⟩
  | updateConversation id u =>
      refine ⟨List.Pairwise.nil, fun a ha => absurd ha (List.not_mem_nil a), ?_⟩
      show s.currentId ≤ (MemStorage.updateConversation now id u s).2.currentId
      rw [updateConversation_currentId]
  | updateProduct id d =>
      refine ⟨List.Pairwise.nil, fun a ha => absurd ha (List.not_mem_nil a), ?_⟩
      show s.currentId ≤ (MemStorage.updateProduct now id d s).2.currentId
      rw [updateProduct_currentId]
  | updateOrder id u =>
      refine ⟨List.Pairwise.nil, fun a ha => absurd ha (List.not_mem_nil a), ?_⟩
      show s.currentId ≤ (MemStorage.updateOrder now id u s).2.currentId
      rw [updateOrder_currentId]
  | updateRecommendation id u =>
      refine ⟨List.Pairwise.nil, fun a ha => absurd ha (List.not_mem_nil a), ?_⟩
      show s.currentId ≤ (MemStorage.updateRecommendation id u s).2.currentId
      rw [updateRecommendation_currentId]
  | updateWebhook id u =>
      refine ⟨List.Pairwise.nil, fun a ha => absurd ha (List.not_mem_nil a), ?_⟩
      show s.currentId ≤ (MemStorage.updateWebhook id u s).2.currentId
      rw [updateWebhook_currentId]
  | deleteWebhook id =>
      exact ⟨List.Pairwise.nil, fun a ha => absurd ha (List.not_mem_nil a),
        Nat.le_refl _⟩
  | syncProducts l =>
      obtain ⟨fresh, h1, h2, h3, h4⟩ := syncTr_fold_inv now l (([], s), [])
      constructor
      · show (l.foldl (syncOneTr now) (([], s), [])).2.Pairwise (· < ·)
        rw [h1]
        exact h2
      constructor
      · intro a ha
        have ha' : a ∈ (l.foldl (syncOneTr now) (([], s), [])).2 := ha
        rw [h1] at ha'
        exact h3 a (by simpa using ha')
      · exact h4

theorem runTrace_ids (now : Nat) :
    ∀ (trace : List Op) (s : MemStorage),
      (runTrace now s trace).2.Pairwise (· < ·) ∧
      (∀ a ∈ (runTrace now s trace).2,
        s.currentId ≤ a ∧ a < (runTrace now s trace).1.currentId) ∧
      s.currentId ≤ (runTrace now s trace).1.currentId := by
  intro trace
  induction trace with
  | nil =>
      intro s
      exact ⟨List.Pairwise.nil, fun a ha => absurd ha (List.not_mem_nil a),
        Nat.le_refl _⟩
  | cons op rest ih =>
      intro s
      obtain ⟨hop1, hop2, hop3⟩ := runOp_ids now s op
      obtain ⟨ih1, ih2, ih3⟩ := ih (runOp now s op).1
      have hsplit : (runTrace now s (op :: rest)).2 =
          (runOp now s op).2 ++ (runTrace now (runOp now s op).1 rest).2 := rfl
      have hstate : (runTrace now s (op :: rest)).1 =
          (runTrace now (runOp now s op).1 rest).1 := rfl
      refine ⟨?_, ?_, ?_⟩
      · rw [hsplit, List.pairwise_append]
        refine ⟨hop1, ih1, ?_⟩
        intro a ha b hb
        have h1 := (hop2 a ha).2
        have h2 := (ih2 b hb).1
        omega
      · intro a ha
        rw [hsplit] at ha
        rw [hstate]
        rcases List.mem_append.mp ha with ha | ha
        · have h1 := hop2 a ha
          have := ih3
          omega
        · have h1 := ih2 a ha
          have := hop3
          omega
      · rw [hstate]
        omega

/-- C8: along every trace of store operations starting from the fresh
store, the identifiers handed out by the create operations (of all seven
entity kinds, `syncProducts`-internal creations included) are strictly
increasing in allocation order — every create returns an id strictly
greater than every previously assigned id — and therefore globally unique. -/
theorem create_ids_globally_monotone (now : Nat) (trace : List Op) :
    (runTrace now MemStorage.init trace).2.Pairwise (· < ·) ∧
    (runTrace now MemStorage.init trace).2.Nodup := by
  have h := (runTrace_ids now trace MemStorage.init).1
  exact ⟨h, h.imp Nat.ne_of_lt⟩

/-! ## Claim C9: referential integrity of messages -/

theorem any_id_congr (g : Conversation → Conversation) (cid : Nat) :
    ∀ l : List Conversation, (∀ q ∈ l, (g q).id = q.id) →
      (l.map g).any (fun c => c.id == cid) = l.any (fun c => c.id == cid) := by
  intro l
  induction l with
  | nil => intro _; rfl
  | cons x t ih =>
      intro hid
      simp only [List.map_cons, List.any_cons]
      rw [hid x (List.mem_cons_self x t),
          ih (fun q hq => hid q (List.mem_cons_of_mem x hq))]

theorem updateConversation_conv_any (now id : Nat) (u : ConversationPatch)
    (s : MemStorage) (cid : Nat) :
    ((MemStorage.updateConversation now id u s).2.conversations.any
        (fun c => c.id == cid)) =
      s.conversations.any (fun c => c.id == cid) := by
  unfold MemStorage.updateConversation
  cases hf : s.conversations.find? (fun c => c.id == id) with
  | none => rfl
  | some c =>
      have hcid : c.id = id := by simpa using List.find?_some hf
      refine any_id_congr _ cid s.conversations ?_
      intro q hq
      by_cases hb : q.id = id
      · rw [if_pos (by simpa using hb)]
        show c.id = q.id
        rw [hcid, hb]
      · rw [if_neg (by simpa using hb)]

theorem syncOneTr_other (now : Nat) (acc : (List Product × MemStorage) × List Nat)
    (d : InsertProduct) :
    (syncOneTr now acc d).1.2.conversations = acc.1.2.conversations ∧
    (syncOneTr now acc d).1.2.messages = acc.1.2.messages := by
  unfold syncOneTr
  cases hf : MemStorage.getProductByShopifyId acc.1.2 d.shopifyId with
  | some e =>
      constructor
      · show (MemStorage.syncOne now acc.1 d).2.conversations = acc.1.2.conversations
        unfold MemStorage.syncOne
        rw [hf]
        show (match MemStorage.updateProduct now e.id d acc.1.2 with
            | (u, s') => match u with
              | some updated => (acc.1.1 ++ [updated], s')
              | none => (acc.1.1, s')).2.conversations = acc.1.2.conversations
        unfold MemStorage.updateProduct
        cases acc.1.2.products.find? (fun p => p.id == e.id) <;> rfl
      · show (MemStorage.syncOne now acc.1 d).2.messages = acc.1.2.messages
        unfold MemStorage.syncOne
        rw [hf]
        show (match MemStorage.updateProduct now e.id d acc.1.2 with
            | (u, s') => match u with
              | some updated => (acc.1.1 ++ [updated], s')
              | none => (acc.1.1, s')).2.messages = acc.1.2.messages
        unfold MemStorage.updateProduct
        cases acc.1.2.products.find? (fun p => p.id == e.id) <;> rfl
  | none => exact ⟨rfl, rfl⟩

theorem syncTrFold_other (now : Nat) (l : List InsertProduct) :
    ∀ acc : (List Product × MemStorage) × List Nat,
      (l.foldl (syncOneTr now) acc).1.2.conversations = acc.1.2.conversations ∧
      (l.foldl (syncOneTr now) acc).1.2.messages = acc.1.2.messages := by
  induction l with
  | nil => intro acc; exact ⟨rfl, rfl⟩
  | cons d rest ih =>
      intro acc
      obtain ⟨h1, h2⟩ := ih (syncOneTr now acc d)
      obtain ⟨h3, h4⟩ := syncOneTr_other now acc d
      simp only [List.foldl_cons]
      exact ⟨h1.trans h3, h2.trans h4⟩

/-- One step preserves integrity when the messages are untouched and the
reachable conversation ids are preserved. -/
theorem integrity_step (s s' : MemStorage) (hm : s'.messages = s.messages)
    (hc : ∀ cid, s.conversations.any (fun c => c.id == cid) = true →
      s'.conversations.any (fun c => c.id == cid) = true)
    (hi : msgIntegrityB s = true) : msgIntegrityB s' = true := by
  unfold msgIntegrityB at *
  rw [hm]
  rw [List.all_eq_true] at *
  intro m hmem
  exact hc _ (hi m hmem)

theorem guarded_trace_integrity (now : Nat) :
    ∀ (trace : List Op) (s : MemStorage), guardedB now s trace = true →
      msgIntegrityB s = true → msgIntegrityB (runTrace now s trace).1 = true := by
  intro trace
  induction trace with
  | nil => intro s _ hi; exact hi
  | cons op rest ih =>
      intro s hg hi
      have hstate : (runTrace now s (op :: rest)).1 =
          (runTrace now (runOp now s op).1 rest).1 := rfl
      rw [hstate]
      have hg2 : guardedB now (runOp now s op).1 rest = true := by
        cases op <;> simp only [guardedB, Bool.and_eq_true] at hg <;> exact hg.2
      refine ih _ hg2 ?_
      cases op with
      | createUser d => exact integrity_step s _ rfl (fun cid h => h) hi
      | createConversation d =>
          refine integrity_step s _ rfl ?_ hi
          intro cid h
          show ((s.conversations ++ _).any (fun c => c.id == cid)) = true
          rw [List.any_append, h]
          rfl
      | updateConversation id u =>
          refine integrity_step s _ ?_ ?_ hi
          · show (MemStorage.updateConversation now id u s).2.messages = s.messages
            unfold MemStorage.updateConversation
            cases s.conversations.find? (fun c => c.id == id) <;> rfl
          · intro cid h
            show ((MemStorage.updateConversation now id u s).2.conversations.any
              (fun c => c.id == cid)) = true
            rw [updateConversation_conv_any]
            exact h
      | createMessage d =>
          unfold msgIntegrityB at hi ⊢
          rw [List.all_eq_true] at hi ⊢
          intro m hmem
          have hmem' : m ∈ s.messages ++
              [⟨s.currentId, d.conversationId, d.role, d.content, d.metadata, now⟩] := hmem
          rcases List.mem_append.mp hmem' with hmem' | hmem'
          · exact hi m hmem'
          · have hm : m = ⟨s.currentId, d.conversationId, d.role, d.content,
                d.metadata, now⟩ := by simpa using hmem'
            subst hm
            have hgm : (s.conversations.any (fun c => c.id == d.conversationId) &&
                guardedB now (runOp now s (Op.createMessage d)).1 rest) = true := hg
            rw [Bool.and_eq_true] at hgm
            exact hgm.1
      | createProduct d => exact integrity_step s _ rfl (fun cid h => h) hi
      | updateProduct id d =>
          refine integrity_step s _ ?_ ?_ hi
          · show (MemStorage.updateProduct now id d s).2.messages = s.messages
            unfold MemStorage.updateProduct
            cases s.products.find? (fun p => p.id == id) <;> rfl
          · intro cid h
            show ((MemStorage.updateProduct now id d s).2.conversations.any
              (fun c => c.id == cid)) = true
            unfold MemStorage.updateProduct
            cases s.products.find? (fun p => p.id == id) <;> exact h
      | syncProducts l =>
          obtain ⟨hc, hm⟩ := syncTrFold_other now l (([], s), [])
          refine integrity_step s _ hm ?_ hi
          intro cid h
          show ((l.foldl (syncOneTr now) (([], s), [])).1.2.conversations.any
            (fun c => c.id == cid)) = true
          rw [hc]
          exact h
      | createOrder d => exact integrity_step s _ rfl (fun cid h => h) hi
      | updateOrder id u =>
          refine integrity_step s _ ?_ ?_ hi
          · show (MemStorage.updateOrder now id u s).2.messages = s.messages
            unfold MemStorage.updateOrder
            cases s.orders.find? (fun o => o.id == id) <;> rfl
          · intro cid h
            show ((MemStorage.updateOrder now id u s).2.conversations.any
              (fun c => c.id == cid)) = true
            unfold MemStorage.updateOrder
            cases s.orders.find? (fun o => o.id == id) <;> exact h
      | createRecommendation d => exact integrity_step s _ rfl (fun cid h => h) hi
      | updateRecommendation id u =>
          refine integrity_step s _ ?_ ?_ hi
          · show (MemStorage.updateRecommendation id u s).2.messages = s.messages
            unfold MemStorage.updateRecommendation
            cases s.recommendations.find? (fun r => r.id == id) <;> rfl
          · intro cid h
            show ((MemStorage.updateRecommendation id u s).2.conversations.any
              (fun c => c.id == cid)) = true
            unfold MemStorage.updateRecommendation
            cases s.recommendations.find? (fun r => r.id == id) <;> exact h
      | createWebhook d => exact integrity_step s _ rfl (fun cid h => h) hi
      | updateWebhook id u =>
          refine integrity_step s _ ?_ ?_ hi
          · show (MemStorage.updateWebhook id u s).2.messages = s.messages
            unfold MemStorage.updateWebhook
            cases s.webhooks.find? (fun w => w.id == id) <;> rfl
          · intro cid h
            show ((MemStorage.updateWebhook id u s).2.conversations.any
              (fun c => c.id == cid)) = true
            unfold MemStorage.updateWebhook
            cases s.webhooks.find? (fun w => w.id == id) <;> exact h
      | deleteWebhook id => exact integrity_step s _ rfl (fun cid h => h) hi

/-- Counterexample to C9 as stated: `createMessage` performs no lookup of
the owning conversation, so the one-operation trace that stores a message
referencing conversation 1 in the fresh (conversation-less) store reaches a
state violating referential integrity. -/
theorem createMessage_unchecked :
    msgIntegrityB (runTrace 0 MemStorage.init [Op.createMessage msgDraftFix]).1 =
      false := by decide

/-- C9 (amended): the store itself does not enforce the reference, but
along every guarded trace — one in which each `createMessage` names a
conversation that exists at the moment of the call, the discipline all
route call sites follow — every reachable state satisfies referential
integrity of messages. -/
theorem message_integrity_guarded (now : Nat) (trace : List Op)
    (h : guardedB now MemStorage.init trace = true) :
    msgIntegrityB (runTrace now MemStorage.init trace).1 = true :=
  guarded_trace_integrity now trace MemStorage.init h rfl

/-- Witness for C9: the guarded two-operation trace that creates a
conversation (id 1) and then a message owned by it. -/
theorem message_integrity_guarded_witness :
    guardedB 0 MemStorage.init
        [Op.createConversation convDraftFix, Op.createMessage msgDraftFix] = true ∧
    msgIntegrityB (runTrace 0 MemStorage.init
        [Op.createConversation convDraftFix, Op.createMessage msgDraftFix]).1 = true :=
  ⟨by decide,
   message_integrity_guarded 0
     [Op.createConversation convDraftFix, Op.createMessage msgDraftFix] (by decide)⟩

/-! ## Claim C10: the top-products report is an inner join -/

theorem length_filterMap_countP {α β : Type} (f : α → Option β) :
    ∀ l : List α, (l.filterMap f).length = l.countP (fun a => (f a).isSome) := by
  intro l
  induction l with
  | nil => rfl
  | cons x t ih =>
      cases hf : f x <;>
        simp [List.filterMap_cons, hf, List.countP_cons, ih]

theorem optMap_isSome {α β : Type} (g : α → β) (o : Option α) :
    (o.map g).isSome = o.isSome := by
  cases o <;> rfl

theorem find?_isSome_any {α : Type} (p : α → Bool) :
    ∀ l : List α, (l.find? p).isSome = l.any p := by
  intro l
  induction l with
  | nil => rfl
  | cons x t ih =>
      cases hpx : p x <;> simp [List.find?_cons, hpx, List.any_cons, ih]

theorem countP_fst (P : Nat → Bool) : ∀ m : List (Nat × Nat × Nat),
    m.countP (fun e => P e.1) = (m.map (fun e => e.1)).countP P := by
  intro m
  induction m with
  | nil => rfl
  | cons x t ih => simp [List.countP_cons, ih]

/-- One `upsertStat` step leaves the key list unchanged when the key is
present, and appends it otherwise. -/
theorem upsertStat_keys (m : List (Nat × Nat × Nat)) (pid : Nat) (acc : Bool) :
    (upsertStat m pid acc).map (fun e => e.1) =
      if m.any (fun e => e.1 == pid) then m.map (fun e => e.1)
      else m.map (fun e => e.1) ++ [pid] := by
  unfold upsertStat
  by_cases h : m.any (fun e => e.1 == pid) = true
  · rw [if_pos h, if_pos h, List.map_map]
    apply List.map_congr_left
    intro e _
    simp only [Function.comp]
    split <;> rfl
  · rw [if_neg h, if_neg h, List.map_append]
    rfl

theorem productStats_keys_aux (recs : List Recommendation) :
    ∀ m : List (Nat × Nat × Nat), ((m.map (fun e => e.1)).Nodup) →
      (((recs.foldl (fun m r => upsertStat m r.productId (truthy r.accepted)) m).map
          (fun e => e.1)).Nodup ∧
       ∀ k, k ∈ (recs.foldl (fun m r => upsertStat m r.productId (truthy r.accepted)) m).map
            (fun e => e.1) ↔
          k ∈ m.map (fun e => e.1) ∨ k ∈ recs.map (fun r => r.productId)) := by
  induction recs with
  | nil =>
      intro m hm
      exact ⟨hm, fun k => by simp⟩
  | cons r rest ih =>
      intro m hm
      have hkeys := upsertStat_keys m r.productId (truthy r.accepted)
      by_cases hany : m.any (fun e => e.1 == r.productId) = true
      · rw [if_pos hany] at hkeys
        obtain ⟨h1, h2⟩ := ih (upsertStat m r.productId (truthy r.accepted))
          (by rw [hkeys]; exact hm)
        have hmem : r.productId ∈ m.map (fun e => e.1) := by
          rw [List.any_eq_true] at hany
          obtain ⟨e, he, hpe⟩ := hany
          exact List.mem_map.mpr ⟨e, he, by simpa using hpe⟩
        refine ⟨by rw [List.foldl_cons]; exact h1, fun k => ?_⟩
        rw [List.foldl_cons, h2 k, hkeys, List.map_cons, List.mem_cons]
        constructor
        · rintro (h | h)
          · exact Or.inl h
          · exact Or.inr (Or.inr h)
        · rintro (h | h | h)
          · exact Or.inl h
          · exact Or.inl (h ▸ hmem)
          · exact Or.inr h
      · rw [if_neg hany] at hkeys
        have hpid : r.productId ∉ m.map (fun e => e.1) := by
          intro hmem
          apply hany
          rw [List.any_eq_true]
          obtain ⟨e, he, hpe⟩ := List.mem_map.mp hmem
          exact ⟨e, he, by simpa using hpe⟩
        have hnew : ((upsertStat m r.productId (truthy r.accepted)).map
            (fun e => e.1)).Nodup := by
          rw [hkeys, List.nodup_append]
          refine ⟨hm, List.nodup_singleton _, ?_⟩
          intro a ha hb
          rw [List.mem_singleton] at hb
          exact hpid (hb ▸ ha)
        obtain ⟨h1, h2⟩ := ih (upsertStat m r.productId (truthy r.accepted)) hnew
        refine ⟨by rw [List.foldl_cons]; exact h1, fun k => ?_⟩
        rw [List.foldl_cons, h2 k, hkeys, List.mem_append, List.mem_singleton,
            List.map_cons, List.mem_cons]
        tauto

/-- The keys of `productStats` are exactly the distinct recommended
product ids. -/
theorem productStats_keys (recs : List Recommendation) :
    ((productStats recs).map (fun e => e.1)).Nodup ∧
    ∀ k, k ∈ (productStats recs).map (fun e => e.1) ↔
      k ∈ recs.map (fun r => r.productId) := by
  obtain ⟨h1, h2⟩ := productStats_keys_aux recs [] (by simp)
  refine ⟨h1, fun k => ?_⟩
  rw [productStats, h2 k]
  simp

/-- C10: the report joins recommendation groups to product records with an
inner join — every returned entry carries a product stored in the map, the
report's length is `limit` capped at the number of distinct recommended
product ids that have a product record (so groups without a record
contribute nothing), and concretely a store with one distinct recommended
id but no product record yields an empty report at `limit = 1`. -/
theorem topRecommended_inner_join (limit : Nat) (s : MemStorage) :
    (∀ e ∈ MemStorage.getTopRecommendedProducts limit s, e.product ∈ s.products) ∧
    (MemStorage.getTopRecommendedProducts limit s).length =
      min limit ((distinctRecommendedIds s).filter
        (fun k => s.products.any (fun p => p.id == k))).length ∧
    (MemStorage.getTopRecommendedProducts 1 stFixC10 = [] ∧
      1 ≤ (distinctRecommendedIds stFixC10).length) := by
  have hB : ∀ (lim : Nat) (st : MemStorage),
      (MemStorage.getTopRecommendedProducts lim st).length =
        min lim ((distinctRecommendedIds st).filter
          (fun k => st.products.any (fun p => p.id == k))).length := by
    intro lim st
    simp only [MemStorage.getTopRecommendedProducts]
    rw [List.length_take, List.length_mergeSort]
    congr 1
    simp only [distinctRecommendedIds]
    rw [length_filterMap_countP]
    simp only [optMap_isSome, find?_isSome_any]
    rw [countP_fst (fun k => st.products.any (fun p => p.id == k))]
    rw [List.countP_eq_length_filter]
    obtain ⟨hkn, hmemk⟩ := productStats_keys st.recommendations
    have hdd : ((st.recommendations.map (fun r => r.productId)).dedup).Nodup :=
      List.nodup_dedup _
    have hfin : (((productStats st.recommendations).map (fun e => e.1)).filter
          (fun k => st.products.any (fun p => p.id == k))).toFinset =
        (((st.recommendations.map (fun r => r.productId)).dedup).filter
          (fun k => st.products.any (fun p => p.id == k))).toFinset := by
      ext a
      simp only [List.mem_toFinset, List.mem_filter, List.mem_dedup]
      rw [hmemk a]
    have hlen1 := List.toFinset_card_of_nodup
      (hkn.filter (fun k => st.products.any (fun p => p.id == k)))
    have hlen2 := List.toFinset_card_of_nodup
      (hdd.filter (fun k => st.products.any (fun p => p.id == k)))
    rw [← hlen1, ← hlen2, hfin]
  refine ⟨?_, hB limit s, ?_, by decide⟩
  · intro e he
    simp only [MemStorage.getTopRecommendedProducts] at he
    have he1 := List.take_subset _ _ he
    rw [List.mem_mergeSort] at he1
    obtain ⟨a, ha, hfa⟩ := List.mem_filterMap.mp he1
    cases hfind : s.products.find? (fun p => p.id == a.1) with
    | none =>
        rw [hfind] at hfa
        exact absurd hfa (by simp)
    | some product =>
        rw [hfind, Option.map_some'] at hfa
        have hprod : product ∈ s.products := List.mem_of_find?_eq_some hfind
        have hge := Option.some.inj hfa
        rw [← hge]
        exact hprod
  · have h := hB 1 stFixC10
    have hz : min 1 ((distinctRecommendedIds stFixC10).filter
        (fun k => stFixC10.products.any (fun p => p.id == k))).length = 0 := by decide
    rw [hz] at h
    exact List.length_eq_zero.mp h

end SalesBoost
